import Mathlib

/-!
Verification development for the HiveSwarming registry-export codec.

The development shallowly embeds the .reg text codec of the repository:
the renderer `InternalToRegfile.cpp` and the parser (`RegfileToInternal`
and its helpers).  Text is modelled as a list of UTF-16 code units
(natural numbers), value data as a list of bytes (natural numbers).
Every looping construct of the C++ source is translated either to
structural recursion or to a fuel-indexed recursion whose fuel is
computed from the input length at the call site, exactly large enough
for the loop (each iteration consumes at least one element).
-/

/-- UTF-16 code unit, as stored in a `std::wstring` on Windows. -/
abbrev CodeUnit := Nat

/-- Code units of a Lean string literal (used to transcribe ASCII literals from the source). -/
def strU (s : String) : List CodeUnit := s.toList.map Char.toNat

/-- Internal representation of a registry value (`struct RegistryValue` in Conversions.h).
`Typ` embeds the `Type` field (a C++ DWORD). -/
structure RegistryValue where
  Name : List CodeUnit
  Typ : Nat
  BinaryValue : List Nat
deriving DecidableEq

/-- Internal representation of a registry key (`struct RegistryKey` in Conversions.h). -/
inductive RegistryKey where
  | mk (Name : List CodeUnit) (Subkeys : List RegistryKey) (Values : List RegistryValue)

/-- Name field of a registry key. -/
def RegistryKey.Name : RegistryKey → List CodeUnit
  | .mk n _ _ => n

/-- Subkeys field of a registry key. -/
def RegistryKey.Subkeys : RegistryKey → List RegistryKey
  | .mk _ s _ => s

/-- Values field of a registry key. -/
def RegistryKey.Values : RegistryKey → List RegistryValue
  | .mk _ _ v => v

/-- Registry type tag REG_SZ. -/
def REG_SZ : Nat := 1
/-- Registry type tag REG_EXPAND_SZ. -/
def REG_EXPAND_SZ : Nat := 2
/-- Registry type tag REG_BINARY. -/
def REG_BINARY : Nat := 3
/-- Registry type tag REG_DWORD. -/
def REG_DWORD : Nat := 4
/-- Registry type tag REG_MULTI_SZ. -/
def REG_MULTI_SZ : Nat := 7
/-- Registry type tag REG_QWORD. -/
def REG_QWORD : Nat := 11

/-- Preamble of .reg files (`Constants::RegFiles::Preamble`): byte order mark,
header line, CRLF, CRLF. -/
def preambleU : List CodeUnit :=
  65279 :: strU (r"Windows Registry Editor Version 5.00") ++ [13, 10, 13, 10]

/-- The model of `GlobalStringSubstitute(s, "\\", "\\\\")`: the pattern is a single
character, so the scan doubles every backslash. -/
def escBackslash : List CodeUnit → List CodeUnit
  | [] => []
  | 92 :: rest => 92 :: 92 :: escBackslash rest
  | c :: rest => c :: escBackslash rest

/-- The model of `GlobalStringSubstitute(s, "\"", "\\\"")`: a backslash is inserted
before every double quote. -/
def escQuote : List CodeUnit → List CodeUnit
  | [] => []
  | 34 :: rest => 92 :: 34 :: escQuote rest
  | c :: rest => c :: escQuote rest

/-- The model of `GlobalStringSubstitute(s, "\n", "\r\n")`: a CR is inserted before
every LF. -/
def escLF : List CodeUnit → List CodeUnit
  | [] => []
  | 10 :: rest => 13 :: 10 :: escLF rest
  | c :: rest => c :: escLF rest

/-- The model of `GlobalStringSubstitute(s, "\r\n", "\n")` (used on parsed key names):
leftmost-first scan removing the CR of every CRLF pair, resuming after the
replacement. -/
def unescCRLF : List CodeUnit → List CodeUnit
  | [] => []
  | 13 :: 10 :: rest => 10 :: unescCRLF rest
  | c :: rest => c :: unescCRLF rest

/-- Escaping applied by the renderer to value names and REG_SZ string contents:
backslash doubling, then quote escaping, then newline expansion, in the order
the three `GlobalStringSubstitute` calls appear in the source. -/
def escName (l : List CodeUnit) : List CodeUnit := escLF (escQuote (escBackslash l))

/-- Reinterpretation of a byte buffer as UTF-16LE code units
(`WstringValue.assign((PWCHAR)data, size / sizeof(WCHAR))`); a trailing odd
byte is dropped as integer division does. -/
def bytesToWchars : List Nat → List CodeUnit
  | b0 :: b1 :: rest => (b0 + 256 * b1) :: bytesToWchars rest
  | _ => []

/-- Little-endian byte pair of one UTF-16 code unit. -/
def wcharToBytes (w : CodeUnit) : List Nat := [w % 256, w / 256 % 256]

/-- Memory representation of a code-unit sequence as bytes (UTF-16LE). -/
def wcharsToBytes (l : List CodeUnit) : List Nat := (l.map wcharToBytes).flatten

/-- Little-endian value of a byte sequence (the in-memory integer
`*(DWORD*)data` / `*(ULONGLONG*)data` reads). -/
def leVal : List Nat → Nat
  | [] => 0
  | b :: rest => b + 256 * leVal rest

/-- Little-endian byte encoding of a value into `n` bytes (`CopyMemory` of an
integral value into a byte vector). -/
def leBytes : Nat → Nat → List Nat
  | 0, _ => []
  | n + 1, v => v % 256 :: leBytes n (v / 256)

/-- Lowercase hexadecimal digit character for a value below 16, as `std::hex`
output produces. -/
def hexDigitChar (n : Nat) : CodeUnit := if n < 10 then 48 + n else 87 + n

/-- Fuel-indexed most-significant-first hexadecimal digit expansion. -/
def hexDigitsAux : Nat → Nat → List CodeUnit
  | 0, _ => []
  | fuel + 1, n => if n = 0 then [] else hexDigitsAux fuel (n / 16) ++ [hexDigitChar (n % 16)]

/-- Lowercase hexadecimal rendering of a natural number, with `0` rendered as
the single digit `0`, matching a plain `stream << std::hex << n`. -/
def natHex (n : Nat) : List CodeUnit := if n = 0 then [48] else hexDigitsAux (n + 1) n

/-- Hexadecimal rendering padded on the left with `0` up to width `w`, matching
`stream << std::hex << std::setw(w) << std::setfill(L'0') << n`. -/
def hexPad (w n : Nat) : List CodeUnit :=
  List.replicate (w - (natHex n).length) 48 ++ natHex n

/-- Character class of `isxdigit` and of the explicit hexadecimal-digit set
`L"0123456789abcdefABCDEF"` used by the parser. -/
def isXDigitU (c : CodeUnit) : Bool :=
  (48 ≤ c && c ≤ 57) || (97 ≤ c && c ≤ 102) || (65 ≤ c && c ≤ 70)

/-- Numeric value of a hexadecimal digit character. -/
def hexVal (c : CodeUnit) : Nat :=
  if c ≤ 57 then c - 48 else if c ≤ 70 then c - 55 else c - 87

/-- Value of a most-significant-first hexadecimal digit string. -/
def hexListVal (l : List CodeUnit) : Nat := l.foldl (fun a c => 16 * a + hexVal c) 0

/-- ASCII lowercasing of one code unit, as `_wcsnicmp` applies to both sides. -/
def toLowerU (c : CodeUnit) : CodeUnit := if 65 ≤ c && c ≤ 90 then c + 32 else c

/-- Case-insensitive comparison of two code-unit sequences
(`_wcsnicmp(a, b, n)` over full sequences of equal length `n`). -/
def icaseEq (a b : List CodeUnit) : Bool := a.map toLowerU == b.map toLowerU

/-- Text `hex:` or `hex(tt):` emitted in front of a hexadecimal rendition
(RenderBinaryValue, lines 34-39): the parenthesised lowercase type tag appears
exactly when the type is not REG_BINARY. -/
def hexRenderPrefix (typ : Nat) : List CodeUnit :=
  strU (r"hex") ++ (if typ = REG_BINARY then [] else 40 :: natHex typ ++ [41]) ++ [58]

/-- Byte loop of RenderBinaryValue (lines 43-62): every byte is rendered as two
lowercase hexadecimal digits; a comma follows every byte except the last; after
appending a comma, if the running line size exceeds 76 (80 minus 4), a
continuation backslash, CRLF and two leading spaces are emitted and the
running size resets to 2. -/
def renderHexBytes : List Nat → Nat → List CodeUnit
  | [], _ => []
  | [b], _ => hexPad 2 b
  | b :: rest, cur =>
    if cur + 3 > 76 then
      hexPad 2 b ++ [44, 92, 13, 10, 32, 32] ++ renderHexBytes rest 2
    else
      hexPad 2 b ++ [44] ++ renderHexBytes rest (cur + 3)

/-- RenderBinaryValue: hexadecimal rendition of a value, starting at column
`firstLineSize`, terminated by CRLF. -/
def renderBinaryValue (firstLineSize : Nat) (typ : Nat) (bytes : List Nat) : List CodeUnit :=
  hexRenderPrefix typ
    ++ renderHexBytes bytes (firstLineSize + (hexRenderPrefix typ).length)
    ++ [13, 10]

/-- RenderDwordValue: `dword:` and eight padded hexadecimal digits when the data
is exactly four bytes, otherwise fallback to the hexadecimal rendition. -/
def renderDwordValue (firstLineSize : Nat) (v : RegistryValue) : List CodeUnit :=
  if v.BinaryValue.length = 4 then
    strU (r"dword") ++ [58] ++ hexPad 8 (leVal v.BinaryValue) ++ [13, 10]
  else renderBinaryValue firstLineSize v.Typ v.BinaryValue

/-- RenderQwordValue: `qword:` and sixteen padded hexadecimal digits when the
data is exactly eight bytes, otherwise fallback to the hexadecimal rendition. -/
def renderQwordValue (firstLineSize : Nat) (v : RegistryValue) : List CodeUnit :=
  if v.BinaryValue.length = 8 then
    strU (r"qword") ++ [58] ++ hexPad 16 (leVal v.BinaryValue) ++ [13, 10]
  else renderBinaryValue firstLineSize v.Typ v.BinaryValue

/-- RenderStringValue: quoted, escaped rendition of a REG_SZ value whose data
has even length, is non-empty, and whose only null code unit is the final one;
any precondition violation falls back to the hexadecimal rendition. -/
def renderStringValue (firstLineSize : Nat) (v : RegistryValue) : List CodeUnit :=
  if v.BinaryValue.length % 2 ≠ 0 then renderBinaryValue firstLineSize v.Typ v.BinaryValue
  else
    let w := bytesToWchars v.BinaryValue
    if w = [] then renderBinaryValue firstLineSize v.Typ v.BinaryValue
    else if w.getLast? ≠ some 0 ∨ w.dropLast.contains 0 then
      renderBinaryValue firstLineSize v.Typ v.BinaryValue
    else 34 :: escName w.dropLast ++ [34, 13, 10]

/-- Character escaping of the RenderMultiSzValue inner loop: a CR is emitted
before an LF, a backslash before a backslash or double quote. -/
def escFullChar (c : CodeUnit) : List CodeUnit :=
  if c = 10 then [13, 10]
  else if c = 92 ∨ c = 34 then [92, c]
  else [c]

/-- Inner while loop of RenderMultiSzValue (lines 261-285): escape and emit
characters up to and including the next null; the null becomes the closing
quote.  Returns the emitted text and the remaining code units. -/
def renderOneSeg : List CodeUnit → (List CodeUnit × List CodeUnit)
  | [] => ([], [])
  | 0 :: rest => ([34], rest)
  | c :: rest =>
    let p := renderOneSeg rest
    (escFullChar c ++ p.1, p.2)

/-- Outer while loop of RenderMultiSzValue (lines 258-316).  `pending` is the
content of `StringRenditionStream` since the last flush, `cur` is
`CurLineSizeSoFar`, `out` the text already written.  After emitting a quoted
string and a comma separator, the whole pending length is added to `cur`; when
`cur` exceeds 78 (80 minus 2) the pending text plus a continuation backslash
and CRLF are flushed and `firstLineSize` leading spaces restart the stream. -/
def multiSzLoopAux :
    Nat → List CodeUnit → List CodeUnit → Nat → Nat → List CodeUnit → List CodeUnit
  | 0, _, pending, _, _, out => out ++ pending
  | fuel + 1, rem, pending, cur, firstLineSize, out =>
    match rem with
    | [] => out ++ pending
    | _ :: _ =>
      let p := renderOneSeg rem
      let pending1 := pending ++ 34 :: p.1
      if p.2 = [] then out ++ pending1 ++ [13, 10]
      else
        let pending2 := pending1 ++ [44]
        if cur + pending2.length > 78 then
          multiSzLoopAux fuel p.2 (List.replicate firstLineSize 32) firstLineSize firstLineSize
            (out ++ pending2 ++ [92, 13, 10])
        else
          multiSzLoopAux fuel p.2 pending2 (cur + pending2.length) firstLineSize out

/-- RenderMultiSzValue: quoted string list rendition for REG_MULTI_SZ and
REG_EXPAND_SZ, falling back to the hexadecimal rendition when the data length
is not even, is empty, or does not end in a null code unit. -/
def renderMultiSzValue (firstLineSize : Nat) (typeSpec : List CodeUnit) (v : RegistryValue) :
    List CodeUnit :=
  if v.BinaryValue.length % 2 ≠ 0 then renderBinaryValue firstLineSize v.Typ v.BinaryValue
  else
    let w := bytesToWchars v.BinaryValue
    if w = [] then renderBinaryValue firstLineSize v.Typ v.BinaryValue
    else if w.getLast? ≠ some 0 then renderBinaryValue firstLineSize v.Typ v.BinaryValue
    else multiSzLoopAux (w.length + 1) w (typeSpec ++ [58]) firstLineSize firstLineSize []

/-- Name part of a value line (RenderRegistryValue lines 342-354): `@=` for the
default value, otherwise the escaped name in double quotes followed by `=`. -/
def renderValueName (name : List CodeUnit) : List CodeUnit :=
  if name = [] then [64, 61]
  else 34 :: escName name ++ [34, 61]

/-- RenderRegistryValue: name part, then dispatch on the value type, the
extension renderers (qword, multi_sz, expand_sz) being reachable only when
extensions are enabled; everything else renders hexadecimally. -/
def renderRegistryValue (ext : Bool) (v : RegistryValue) : List CodeUnit :=
  let np := renderValueName v.Name
  np ++
    (if v.Typ = REG_DWORD then renderDwordValue np.length v
     else if v.Typ = REG_SZ then renderStringValue np.length v
     else if v.Typ = REG_QWORD ∧ ext = true then renderQwordValue np.length v
     else if v.Typ = REG_MULTI_SZ ∧ ext = true then
       renderMultiSzValue np.length (strU (r"multi_sz")) v
     else if v.Typ = REG_EXPAND_SZ ∧ ext = true then
       renderMultiSzValue np.length (strU (r"expand_sz")) v
     else renderBinaryValue np.length v.Typ v.BinaryValue)

mutual

/-- RenderRegistryKeyToRegFormat: emit the bracketed full path (with LF expanded
to CRLF) and CRLF, every value in order, a blank line, then every subkey in
order with the extended path. -/
def renderRegistryKeyToRegFormat (ext : Bool) (pathSoFar : List CodeUnit) :
    RegistryKey → List CodeUnit
  | .mk name sub vals =>
    let newPath := if pathSoFar = [] then name else pathSoFar ++ 92 :: name
    91 :: escLF newPath ++ [93, 13, 10]
      ++ ((vals.map (renderRegistryValue ext)).flatten ++ [13, 10]
      ++ renderRegistryKeysList ext newPath sub)

/-- Rendering of a list of sibling keys in order (the subkey loop of
RenderRegistryKeyToRegFormat). -/
def renderRegistryKeysList (ext : Bool) (pathSoFar : List CodeUnit) :
    List RegistryKey → List CodeUnit
  | [] => []
  | k :: rest =>
    renderRegistryKeyToRegFormat ext pathSoFar k ++ renderRegistryKeysList ext pathSoFar rest

end

/-- InternalToRegfile: preamble followed by the rendition of the root key with
an empty starting path (the file-system side effects are out of scope). -/
def internalToRegfile (ext : Bool) (k : RegistryKey) : List CodeUnit :=
  preambleU ++ renderRegistryKeyToRegFormat ext [] k

/-- Parse errors.  Every failure path of the parser reports `E_UNEXPECTED` (or
an equally failing HRESULT); the single constructor `unexpected` stands for all
of them, and `fuelOut` is the artifact of fuel exhaustion, never reached when a
function is invoked with its input-length fuel. -/
inductive PErr where
  | unexpected
  | fuelOut
deriving DecidableEq

deriving instance DecidableEq for Except

/-- Model of `ExpectAndConsumeAtReadHead`: if the expected sequence is a prefix
of the view, consume it. -/
def expectConsume (pat l : List CodeUnit) : Option (List CodeUnit) :=
  if pat.isPrefixOf l then some (l.drop pat.length) else none

/-- Scanning loop shared by ReadNameOfRegistryValue (lines 74-105) and
ReadString (lines 330-363), operating on the text after the opening quote: an
unescaped double quote ends the scan; a backslash emits the following
character; the CR of a CRLF pair is skipped; reaching the end of input, or a
position whose successor is past the end before the closing quote was found,
is an error.  Returns the unescaped content and the text after the closing
quote. -/
def readQuotedAux : List CodeUnit → Except PErr (List CodeUnit × List CodeUnit)
  | [] => .error .unexpected
  | 34 :: rest => .ok ([], rest)
  | [_] => .error .unexpected
  | 92 :: c :: rest => (readQuotedAux rest).map (fun p => (c :: p.1, p.2))
  | 13 :: 10 :: [] => .error .unexpected
  | 13 :: 10 :: c2 :: rest => (readQuotedAux (c2 :: rest)).map (fun p => (10 :: p.1, p.2))
  | c :: rest => (readQuotedAux rest).map (fun p => (c :: p.1, p.2))

/-- ReadNameOfRegistryValue: a literal `@` denotes the empty (default) name,
otherwise a double-quoted escaped name is read; anything else is an error. -/
def readNameOfRegistryValue (l : List CodeUnit) : Except PErr (List CodeUnit × List CodeUnit) :=
  match l with
  | 64 :: rest => .ok ([], rest)
  | 34 :: rest => readQuotedAux rest
  | _ => .error .unexpected

/-- The value renderings of the parser (`enum class ValueRendering`). -/
inductive ValueRendering where
  | Unknown
  | Hexadecimal
  | Str
  | Dword
  | Qword
  | MultiSz
  | ExpandSz
deriving DecidableEq

/-- ReadOptionalBinaryValueType: an opening parenthesis introduces an explicit
hexadecimal type tag that must be non-empty and closed by `)`; the
`wistringstream` extraction of the tag saturates at the largest DWORD on
overflow.  Without a parenthesis the type defaults according to the rendering
mode.  An empty buffer is an error, and the `Unknown` mode is an error. -/
def readOptionalBinaryValueType (mode : ValueRendering) (l : List CodeUnit) :
    Except PErr (Nat × List CodeUnit) :=
  match l with
  | [] => .error .unexpected
  | 40 :: rest =>
    let digits := rest.takeWhile isXDigitU
    if digits.length = 0 then .error .unexpected
    else
      match rest.drop digits.length with
      | 41 :: rest2 => .ok (min (hexListVal digits) 4294967295, rest2)
      | _ => .error .unexpected
  | _ :: _ =>
    match mode with
    | .Unknown => .error .unexpected
    | .Dword => .ok (REG_DWORD, l)
    | .Qword => .ok (REG_QWORD, l)
    | .MultiSz => .ok (REG_MULTI_SZ, l)
    | .ExpandSz => .ok (REG_EXPAND_SZ, l)
    | .Str => .ok (REG_SZ, l)
    | .Hexadecimal => .ok (REG_BINARY, l)

/-- Whitespace class skipped by a `wistringstream` formatted extraction. -/
def isStreamWS (c : CodeUnit) : Bool := c = 32 || (9 ≤ c && c ≤ 13)

/-- Value read by `stream >> std::hex >> v` into an unsigned integral of `size`
bytes from the given characters: leading whitespace is skipped, an optional
sign accepted (a minus wrapping modulo 2^(8*size)), then the maximal run of
hexadecimal digits is converted; an empty run value-initialises to zero. -/
def wstreamHexVal (size : Nat) (s : List CodeUnit) : Nat :=
  match s.dropWhile isStreamWS with
  | 43 :: r => hexListVal (r.takeWhile isXDigitU)
  | 45 :: r =>
    (2 ^ (8 * size) - hexListVal (r.takeWhile isXDigitU) % 2 ^ (8 * size)) % 2 ^ (8 * size)
  | r => hexListVal (r.takeWhile isXDigitU)

/-- ReadIntegralValue: needs strictly more than `2 * size` characters; reads the
fixed-width literal, re-encodes the extracted number zero-padded, compares
case-insensitively with the original; on success the little-endian bytes are
produced and the literal must be followed by CRLF. -/
def readIntegralValue (size : Nat) (l : List CodeUnit) : Except PErr (List Nat × List CodeUnit) :=
  if l.length ≤ 2 * size then .error .unexpected
  else
    let s := l.take (2 * size)
    let v := wstreamHexVal size s
    if icaseEq (hexPad (2 * size) v) s then
      match expectConsume [13, 10] (l.drop (2 * size)) with
      | some rest => .ok (leBytes size v, rest)
      | none => .error .unexpected
    else .error .unexpected

/-- Space-consuming loop `while (ExpectAndConsumeAtReadHead(..., LeadingSpace))`. -/
def dropLeadingSpaces (l : List CodeUnit) : List CodeUnit := l.dropWhile (fun c => c = 32)

/-- ReadHexadecimalData loop: CRLF ends the data; a comma is skipped; a
continuation backslash-CRLF is skipped together with following spaces; two
hexadecimal digits push one byte; anything else is an error.  Fuel-indexed,
each iteration consumes at least one code unit. -/
def readHexadecimalDataAux :
    Nat → List CodeUnit → List Nat → Except PErr (List Nat × List CodeUnit)
  | 0, _, _ => .error .fuelOut
  | fuel + 1, l, acc =>
    match l with
    | [] => .error .unexpected
    | 13 :: 10 :: rest => .ok (acc.reverse, rest)
    | 44 :: rest => readHexadecimalDataAux fuel rest acc
    | 92 :: 13 :: 10 :: rest => readHexadecimalDataAux fuel (dropLeadingSpaces rest) acc
    | a :: b :: rest =>
      if isXDigitU a && isXDigitU b then
        readHexadecimalDataAux fuel rest ((16 * hexVal a + hexVal b) :: acc)
      else .error .unexpected
    | _ => .error .unexpected

/-- ReadHexadecimalData with its fuel. -/
def readHexadecimalData (l : List CodeUnit) : Except PErr (List Nat × List CodeUnit) :=
  readHexadecimalDataAux (l.length + 1) l []

/-- ReadString: an opening quote, the shared quoted scan, then the UTF-16LE
bytes of the content with an appended null code unit.  (The append mode of the
C++ signature is represented by the caller concatenating the result.) -/
def readStringValue (l : List CodeUnit) : Except PErr (List Nat × List CodeUnit) :=
  match l with
  | 34 :: rest =>
    match readQuotedAux rest with
    | .ok p => .ok (wcharsToBytes (p.1 ++ [0]), p.2)
    | .error e => .error e
  | _ => .error .unexpected

/-- Wrap-marker skipping of ReadMultiSzData: while a backslash-CRLF is present,
consume it and all following spaces. -/
def skipWrapsAux : Nat → List CodeUnit → List CodeUnit
  | 0, l => l
  | fuel + 1, l =>
    match l with
    | 92 :: 13 :: 10 :: rest => skipWrapsAux fuel (dropLeadingSpaces rest)
    | _ => l

/-- ReadMultiSzData loop (after the first string): CRLF ends the data; a comma
is consumed together with any wrap markers; then another string is read and its
bytes appended. -/
def readMultiSzDataAux :
    Nat → List CodeUnit → List Nat → Except PErr (List Nat × List CodeUnit)
  | 0, _, _ => .error .fuelOut
  | fuel + 1, l, acc =>
    match l with
    | 13 :: 10 :: rest => .ok (acc, rest)
    | _ =>
      let l1 := match l with
        | 44 :: r => skipWrapsAux r.length r
        | _ => l
      match readStringValue l1 with
      | .ok p => readMultiSzDataAux fuel p.2 (acc ++ p.1)
      | .error e => .error e

/-- ReadMultiSzData: one string, then the separator loop. -/
def readMultiSzData (l : List CodeUnit) : Except PErr (List Nat × List CodeUnit) :=
  match readStringValue l with
  | .ok p => readMultiSzDataAux (p.2.length + 1) p.2 p.1
  | .error e => .error e

/-- Consuming loop of consecutive CRLF pairs (the extra-newline loops of
ValueListToInternal line 451 and RegListToInternal line 599). -/
def dropCRLFpairs : List CodeUnit → List CodeUnit
  | 13 :: 10 :: rest => dropCRLFpairs rest
  | l => l

/-- Loop at RegListToInternal lines 670-673: `remove_prefix(1)` drops only the
CR of a leading CRLF pair, after which the condition no longer holds. -/
def buggyCRStrip : List CodeUnit → List CodeUnit
  | 13 :: 10 :: rest => 10 :: rest
  | l => l

/-- One iteration body of the ValueListToInternal loop, after the empty and
blank-line checks: value name, `=` sign, rendering-prefix dispatch in source
order (dword, qword, hex, multi_sz, expand_sz, else quoted string), optional
parenthesised type with the `:` separator for non-string renderings, the data
itself, and for the string rendering the terminating CRLF. -/
def readOneValue (l : List CodeUnit) : Except PErr (RegistryValue × List CodeUnit) :=
  match readNameOfRegistryValue l with
  | .error e => .error e
  | .ok (name, r1) =>
    match r1 with
    | 61 :: r2 =>
      let mr : ValueRendering × List CodeUnit :=
        match expectConsume (strU (r"dword")) r2 with
        | some r => (.Dword, r)
        | none =>
          match expectConsume (strU (r"qword")) r2 with
          | some r => (.Qword, r)
          | none =>
            match expectConsume (strU (r"hex")) r2 with
            | some r => (.Hexadecimal, r)
            | none =>
              match expectConsume (strU (r"multi_sz")) r2 with
              | some r => (.MultiSz, r)
              | none =>
                match expectConsume (strU (r"expand_sz")) r2 with
                | some r => (.ExpandSz, r)
                | none => (.Str, r2)
      if mr.1 = ValueRendering.Str then
        match readStringValue r2 with
        | .error e => .error e
        | .ok (bs, r3) =>
          match expectConsume [13, 10] r3 with
          | some r4 => .ok (⟨name, REG_SZ, bs⟩, r4)
          | none => .error .unexpected
      else
        match readOptionalBinaryValueType mr.1 mr.2 with
        | .error e => .error e
        | .ok (typ, r3) =>
          match r3 with
          | 58 :: r4 =>
            let dres : Except PErr (List Nat × List CodeUnit) :=
              match mr.1 with
              | .Dword => readIntegralValue 4 r4
              | .Qword => readIntegralValue 8 r4
              | .Hexadecimal => readHexadecimalData r4
              | .MultiSz => readMultiSzData r4
              | .ExpandSz => readMultiSzData r4
              | _ => .error .unexpected
            match dres with
            | .error e => .error e
            | .ok (bs, r5) => .ok (⟨name, typ, bs⟩, r5)
          | _ => .error .unexpected
    | _ => .error .unexpected

/-- ValueListToInternal loop: an empty buffer ends the list successfully; a
CRLF (with any further CRLF pairs) ends the list; otherwise one value line is
read and the loop continues.  Fuel-indexed; each iteration consumes at least
the name and the `=` sign. -/
def valueListAux : Nat → List CodeUnit → Except PErr (List RegistryValue × List CodeUnit)
  | 0, _ => .error .fuelOut
  | fuel + 1, l =>
    match l with
    | [] => .ok ([], [])
    | 13 :: 10 :: rest => .ok ([], dropCRLFpairs rest)
    | _ =>
      match readOneValue l with
      | .error e => .error e
      | .ok (v, rest) =>
        match valueListAux fuel rest with
        | .error e => .error e
        | .ok (vs, rest2) => .ok (v :: vs, rest2)

/-- ValueListToInternal with its fuel. -/
def valueListToInternal (l : List CodeUnit) : Except PErr (List RegistryValue × List CodeUnit) :=
  valueListAux (l.length + 1) l

/-- First index at which `pat` occurs as a prefix of a suffix of the list
(`std::wstring_view::find`), or `none`. -/
def findSub (pat : List CodeUnit) : List CodeUnit → Option Nat
  | [] => if pat.isPrefixOf ([] : List CodeUnit) then some 0 else none
  | c :: rest =>
    if pat.isPrefixOf (c :: rest) then some 0
    else (findSub pat rest).map (· + 1)

/-- Do-while loop of RegListToInternal (lines 612-674).  The buffer must start
with `[`; the closing `]` CRLF is located by searching the whole remaining
buffer from index 1; a path that does not properly extend the prefix ends the
loop, returning the buffer unchanged.  Otherwise the key name is the path
suffix with CRLF folded to LF, the value list is read, the subkey recursion
happens only on a non-empty remainder (inlining the entry strip and
empty-buffer check of the recursive RegListToInternal call), the finished key
is appended, the buggy CR strip runs, and the loop continues while the buffer
is non-empty. -/
def regListLoopAux :
    Nat → List CodeUnit → List CodeUnit → Except PErr (List RegistryKey × List CodeUnit)
  | 0, _, _ => .error .fuelOut
  | fuel + 1, prefixPath, l =>
    match l with
    | 91 :: lrest =>
      match findSub [93, 13, 10] lrest with
      | none => .error .unexpected
      | some n =>
        let keyPath := lrest.take n
        if keyPath.length ≤ prefixPath.length ∨ ¬ prefixPath.isPrefixOf keyPath then
          .ok ([], l)
        else
          match valueListToInternal (lrest.drop (n + 3)) with
          | .error e => .error e
          | .ok (vals, r2) =>
            let subRes : Except PErr (List RegistryKey × List CodeUnit) :=
              if r2 = [] then .ok ([], [])
              else
                let r2s := dropCRLFpairs r2
                if r2s = [] then .error .unexpected
                else regListLoopAux fuel (keyPath ++ [92]) r2s
            match subRes with
            | .error e => .error e
            | .ok (subs, r3) =>
              let key := RegistryKey.mk (unescCRLF (keyPath.drop prefixPath.length)) subs vals
              let r4 := buggyCRStrip r3
              if r4 = [] then .ok ([key], [])
              else
                match regListLoopAux fuel prefixPath r4 with
                | .error e => .error e
                | .ok (keys, r5) => .ok (key :: keys, r5)
    | _ => .error .unexpected

/-- RegListToInternal: strip leading CRLF pairs, fail on an empty buffer, then
run the key loop with its fuel. -/
def regListToInternal (l prefixPath : List CodeUnit) :
    Except PErr (List RegistryKey × List CodeUnit) :=
  let l1 := dropCRLFpairs l
  if l1 = [] then .error .unexpected
  else regListLoopAux (l1.length + 1) prefixPath l1

/-- RegfileToInternal on an in-memory file: the preamble is expected and
consumed, the key list is parsed with the empty prefix, exactly one top-level
key must have been produced and the whole input consumed. -/
def regFileToInternal (content : List CodeUnit) : Except PErr RegistryKey :=
  match expectConsume preambleU content with
  | none => .error .unexpected
  | some rest =>
    match regListToInternal rest [] with
    | .error e => .error e
    | .ok (keys, rest2) =>
      match keys with
      | [k] => if rest2 = [] then .ok k else .error .unexpected
      | _ => .error .unexpected

/-- Input formats of the command-line driver (`enum class SupportedFormat`). -/
inductive SupportedFormat where
  | Unknown
  | Hive
  | Reg
  | RegWithHiveswarmingExtensions
  | Pol
deriving DecidableEq

/-- Input-side dispatch of `wmain` (lines 665-680): both .reg formats are read
by the same `RegfileToInternal` entry point, which takes no extension flag; the
hive and policy readers are out-of-scope collaborators (spec section 1). -/
def regInputStage : SupportedFormat → Option (List CodeUnit → Except PErr RegistryKey)
  | .Reg => some regFileToInternal
  | .RegWithHiveswarmingExtensions => some regFileToInternal
  | _ => none

/-- Output-side dispatch of `wmain` (lines 687-704) restricted to the .reg
formats: `reg` renders with extensions disabled, `reg+` with extensions
enabled, through the same renderer. -/
def regOutputStage : SupportedFormat → Option (RegistryKey → List CodeUnit)
  | .Reg => some (internalToRegfile false)
  | .RegWithHiveswarmingExtensions => some (internalToRegfile true)
  | _ => none

/-- Single-pass form of the escaping used for quoted contents (equal to
`escName`, proved below). -/
def escMulti (s : List CodeUnit) : List CodeUnit := (s.map escFullChar).flatten

/-- Splitting step for multi-string data: content up to (excluding) the first
null code unit, and the remainder after it. -/
def takeSeg : List CodeUnit → (List CodeUnit × List CodeUnit)
  | [] => ([], [])
  | 0 :: r => ([], r)
  | c :: r =>
    let p := takeSeg r
    (c :: p.1, p.2)

/-- Fuel-indexed splitting of multi-string data into null-separated segments. -/
def splitSegsAux : Nat → List CodeUnit → List (List CodeUnit)
  | 0, _ => []
  | _, [] => []
  | fuel + 1, l =>
    let p := takeSeg l
    p.1 :: splitSegsAux fuel p.2

/-- Null-separated segments of multi-string data. -/
def splitSegs (l : List CodeUnit) : List (List CodeUnit) := splitSegsAux (l.length + 1) l

/-- Segment-level characterisation of the RenderMultiSzValue loop used by the
amended wrap claim: `pendingLen` is the length of the output accumulated since
the last flush and `cur` the tracked counter; after appending each quoted
string and its comma the whole accumulated length is added to the counter, and
a continuation backslash-CRLF plus `first` leading spaces are emitted exactly
when the counter then exceeds 78, the counter resetting to `first`. -/
def multiSzSegLoop : List (List CodeUnit) → Nat → Nat → Nat → List CodeUnit
  | [], _, _, _ => []
  | [s], _, _, _ => 34 :: escMulti s ++ [34, 13, 10]
  | s :: rest, pendingLen, cur, first =>
    let unit := 34 :: escMulti s ++ [34, 44]
    if cur + (pendingLen + unit.length) > 78 then
      unit ++ 92 :: 13 :: 10 :: List.replicate first 32
        ++ multiSzSegLoop rest first first first
    else unit ++ multiSzSegLoop rest (pendingLen + unit.length) (cur + (pendingLen + unit.length)) first

/-- Modelled from the spec: the multi-string wrap rule as section 4.1 states
it — the wrap decision is made before appending each unit, using the true
running column count; a break (backslash, CRLF, then prefix-length leading
spaces) is emitted exactly when appending the next complete quoted string plus
its separator would push the column past 80, and the column counter resets to
the prefix length. -/
def multiSzClaimLoop : List (List CodeUnit) → Nat → Nat → List CodeUnit
  | [], _, _ => []
  | [s], col, first =>
    let unit := 34 :: escMulti s ++ [34]
    (if col + unit.length > 80 then 92 :: 13 :: 10 :: List.replicate first 32 else [])
      ++ unit ++ [13, 10]
  | s :: rest, col, first =>
    let unit := 34 :: escMulti s ++ [34, 44]
    if col + unit.length > 80 then
      92 :: 13 :: 10 :: List.replicate first 32
        ++ unit ++ multiSzClaimLoop rest (first + unit.length) first
    else unit ++ multiSzClaimLoop rest (col + unit.length) first

/-- Modelled from the spec: full multi-string rendition under the section-4.1
wrap rule, the column starting from the already-written prefix length and
advancing over the type specifier. -/
def multiSzClaimRender (first : Nat) (typeSpec : List CodeUnit) (bytes : List Nat) :
    List CodeUnit :=
  typeSpec ++ [58] ++
    multiSzClaimLoop (splitSegs (bytesToWchars bytes)) (first + typeSpec.length + 1) first

/-- Pairwise distinctness of a list of names. -/
def namesDistinct : List (List CodeUnit) → Bool
  | [] => true
  | n :: rest => !(rest.contains n) && namesDistinct rest

/-- All elements are UTF-16 code units. -/
def unitsOK (l : List CodeUnit) : Bool := l.all (· < 65536)

/-- All elements are bytes. -/
def bytesOK (l : List Nat) : Bool := l.all (· < 256)

/-- Modelled from the spec: the section-3 well-formedness of one value — the
name is a code-unit sequence, the type an unsigned 32-bit tag, the data a byte
sequence. -/
def valueInv (v : RegistryValue) : Bool :=
  unitsOK v.Name && decide (v.Typ < 4294967296) && bytesOK v.BinaryValue

mutual

/-- Modelled from the spec: the section-3 invariants of a key tree — key names
are code-unit sequences free of the path separator, sibling key names are
pairwise distinct (full paths are then unique), value names are unique within
one key, and every value is well formed. -/
def sec3KeyInv : RegistryKey → Bool
  | .mk n subs vals =>
    unitsOK n && !(n.contains 92)
      && vals.all valueInv && namesDistinct (vals.map RegistryValue.Name)
      && namesDistinct (subs.map RegistryKey.Name) && sec3KeysInv subs

/-- Modelled from the spec: the section-3 invariants over a list of sibling keys. -/
def sec3KeysInv : List RegistryKey → Bool
  | [] => true
  | k :: rest => sec3KeyInv k && sec3KeysInv rest

end

/-- Absence of a `]` code unit immediately followed by a newline. -/
def noKCN : List CodeUnit → Bool
  | 93 :: 10 :: _ => false
  | _ :: rest => noKCN rest
  | [] => true

/-- Absence of the sequence `]` CR LF. -/
def no93CRLF : List CodeUnit → Bool
  | 93 :: 13 :: 10 :: _ => false
  | _ :: rest => no93CRLF rest
  | [] => true

mutual

/-- Conditions on key names under which the rendered header lines can be
re-parsed: every key name in the tree is non-empty, free of the path
separator, and does not contain `]` immediately followed by a newline; every
value carries byte data and a 32-bit type tag. -/
def rtKeyOK : RegistryKey → Bool
  | .mk n subs vals =>
    decide (n ≠ []) && !(n.contains 92) && noKCN n
      && vals.all (fun v => bytesOK v.BinaryValue && decide (v.Typ < 4294967296))
      && rtKeysOK subs

/-- The same conditions over a list of sibling keys. -/
def rtKeysOK : List RegistryKey → Bool
  | [] => true
  | k :: rest => rtKeyOK k && rtKeysOK rest

end

/-- Parser path prefix corresponding to a renderer path accumulator: empty at
the root, otherwise the escaped path extended by the separator. -/
def pathPrefix (pathSoFar : List CodeUnit) : List CodeUnit :=
  if pathSoFar = [] then [] else escLF pathSoFar ++ [92]

set_option maxRecDepth 2000

/-- Claim C2, counterexample: encoding a REG_SZ value whose data is the four
bytes 41 00 42 00 does not produce the text `hex:41,00,42,00` followed by
CRLF — the type tag is REG_SZ, not REG_BINARY, so the rendition carries the
parenthesised type specifier. -/
theorem c2_counterexample :
    renderStringValue 0 ⟨[], REG_SZ, [65, 0, 66, 0]⟩ ≠
      strU (r"hex:41,00,42,00") ++ [13, 10] := by decide

/-- Claim C2, amended: encoding a REG_SZ value whose data is the four bytes
41 00 42 00 (no terminating null) falls back to the hexadecimal rendering, and
that rendering is exactly `hex(1):41,00,42,00` followed by CRLF — the
parenthesised lowercase type tag 1 (REG_SZ) is included because the type is
not REG_BINARY — and not a quoted string. -/
theorem c2_amended :
    renderStringValue 0 ⟨[], REG_SZ, [65, 0, 66, 0]⟩ =
      strU (r"hex(1):41,00,42,00") ++ [13, 10] := by rfl

/-- Claim C3: encoding a 41-byte all-zero REG_BINARY value with an
already-written prefix of length 0 produces exactly one continuation break
(backslash, CRLF, two leading spaces), placed where appending the next
3-character unit would exceed the 80-column limit: the first line carries
`hex:` plus 25 byte units ending in the separator, and the remaining 16 bytes
follow on the continuation line. -/
theorem c3_hex_wrap :
    renderBinaryValue 0 REG_BINARY (List.replicate 41 0) =
      strU (r"hex:") ++ (List.replicate 25 (strU (r"00,"))).flatten
        ++ [92, 13, 10] ++ [32, 32]
        ++ (List.replicate 15 (strU (r"00,"))).flatten ++ strU (r"00") ++ [13, 10] := by rfl

/-- Claim C4: parsing a file whose body is the three consecutive key headers
`[Root]`, `[Root\A]`, `[Root\A\B]`, each followed by an empty value list,
succeeds and produces the tree in which A is the only child of Root and B the
only child of A. -/
theorem c4_nested_reconstruction :
    regFileToInternal (preambleU ++
      (91 :: strU (r"Root") ++ [93, 13, 10, 13, 10]) ++
      (91 :: strU (r"Root\A") ++ [93, 13, 10, 13, 10]) ++
      (91 :: strU (r"Root\A\B") ++ [93, 13, 10, 13, 10])) =
    .ok (.mk (strU (r"Root"))
          [.mk (strU (r"A")) [.mk (strU (r"B")) [] []] []] []) := by rfl

/-- Claim C7, counterexample: a file that simply ends immediately after the
last value's terminating CRLF — the required blank line missing — is accepted
with the parsed tree, not rejected: the value-list loop returns success on an
empty buffer. -/
theorem c7_counterexample :
    regFileToInternal (preambleU ++
      (91 :: strU (r"Root") ++ [93, 13, 10]) ++ strU (r"@=hex:") ++ [13, 10]) =
    .ok (.mk (strU (r"Root")) [] [⟨[], REG_BINARY, []⟩]) := by rfl

/-- Claim C7, amended: a missing blank line after a key's last value is
rejected with a structural error when further content follows the value list,
but when the input ends immediately after the last value's terminating CRLF
the value list is terminated by the end of input and the file is accepted. -/
theorem c7_amended :
    regFileToInternal (preambleU ++
        (91 :: strU (r"Root") ++ [93, 13, 10]) ++ strU (r"@=hex:") ++ [13, 10] ++
        (91 :: strU (r"Root\A") ++ [93, 13, 10, 13, 10])) =
      .error .unexpected ∧
    regFileToInternal (preambleU ++
        (91 :: strU (r"Root") ++ [93, 13, 10]) ++ strU (r#""x"="y""#) ++ [13, 10]) =
      .ok (.mk (strU (r"Root")) [] [⟨strU (r"x"), REG_SZ, [121, 0, 0, 0]⟩]) := by
  exact ⟨rfl, rfl⟩

/-- Claim C9, counterexample: an accepted input can produce a key whose name
contains the path separator — the single header `[Root\A]` with no `[Root]`
header parses successfully into a root key literally named `Root\A`. -/
theorem c9_counterexample :
    regFileToInternal (preambleU ++ (91 :: strU (r"Root\A") ++ [93, 13, 10, 13, 10])) =
      .ok (.mk (strU (r"Root\A")) [] []) ∧
    (strU (r"Root\A")).contains 92 = true := by
  exact ⟨rfl, by decide⟩

/-- Claim C9, amended: a key name produced by the parser is the full-path
suffix after the parent's path prefix, and when intermediate key headers are
absent it can contain the path separator: the header `[Root\A\B]` directly
following `[Root]` yields a child of Root literally named `A\B`. -/
theorem c9_amended :
    regFileToInternal (preambleU ++
      (91 :: strU (r"Root") ++ [93, 13, 10, 13, 10]) ++
      (91 :: strU (r"Root\A\B") ++ [93, 13, 10, 13, 10])) =
    .ok (.mk (strU (r"Root")) [.mk (strU (r"A\B")) [] []] []) := by rfl

/-- Claim C10: the extension-mode switch affects encoding only — the input
dispatch maps both the plain and the extended .reg format to the same parse
entry point, which takes no extension flag; and a file containing the
extension encodings qword:, multi_sz: and expand_sz: parses through that
single entry point into the corresponding type tags and bytes. -/
theorem c10_extension_parsing :
    regInputStage SupportedFormat.Reg =
        regInputStage SupportedFormat.RegWithHiveswarmingExtensions ∧
    regInputStage SupportedFormat.Reg = some regFileToInternal ∧
    regFileToInternal (preambleU ++
        (91 :: strU (r"R") ++ [93, 13, 10]) ++
        (strU (r#""q"=qword:0000000000000001"#) ++ [13, 10]) ++
        (strU (r#""m"=multi_sz:"AB","C""#) ++ [13, 10]) ++
        (strU (r#""e"=expand_sz:"D""#) ++ [13, 10, 13, 10])) =
      .ok (.mk (strU (r"R")) []
        [⟨strU (r"q"), REG_QWORD, [1, 0, 0, 0, 0, 0, 0, 0]⟩,
         ⟨strU (r"m"), REG_MULTI_SZ, [65, 0, 66, 0, 0, 0, 67, 0, 0, 0]⟩,
         ⟨strU (r"e"), REG_EXPAND_SZ, [68, 0, 0, 0]⟩]) := by
  exact ⟨rfl, rfl, rfl⟩

/-- Claim C8, counterexample: the multi-string line wrap of the code differs
from the stated rule at a concrete value — for the three strings `A`, eighty
times `B`, `C` with prefix length 2, the code emits the break only after the
eighty-character string's separator (its check runs after appending), while
the stated rule would break before appending that string. -/
theorem c8_counterexample :
    renderMultiSzValue 2 (strU (r"multi_sz"))
        ⟨[], REG_MULTI_SZ,
          wcharsToBytes ([65] ++ [0] ++ List.replicate 80 66 ++ [0] ++ [67, 0])⟩ ≠
      multiSzClaimRender 2 (strU (r"multi_sz"))
        (wcharsToBytes ([65] ++ [0] ++ List.replicate 80 66 ++ [0] ++ [67, 0])) := by decide

/-- Claim C5: whenever the preamble was consumed and the key-list parser
accepted the remaining input, the top-level entry point fails with a
structural error exactly when the number of top-level keys differs from one
or unparsed code units remain, and succeeds (returning the single key) exactly
when one key was produced and the whole input was consumed. -/
theorem c5_driver_checks (content rest : List CodeUnit) (keys : List RegistryKey)
    (rest2 : List CodeUnit)
    (hpre : expectConsume preambleU content = some rest)
    (hparse : regListToInternal rest [] = .ok (keys, rest2)) :
    ((keys.length ≠ 1 ∨ rest2 ≠ []) → regFileToInternal content = .error .unexpected) ∧
    (∀ k, keys = [k] → rest2 = [] → regFileToInternal content = .ok k) := by
  unfold regFileToInternal
  simp only [hpre, hparse]
  constructor
  · intro h
    match keys, h with
    | [], _ => rfl
    | [k], h =>
      have h2 : rest2 ≠ [] := by
        rcases h with h | h
        · exact absurd rfl h
        · exact h
      simp [h2]
    | k1 :: k2 :: ks, _ => rfl
  · intro k hk h2
    subst hk
    simp [h2]

/-- Claim C5, witness: the theorem applied to the concrete file consisting of
the preamble and one empty key block. -/
theorem c5_driver_checks_witness :
    regFileToInternal (preambleU ++ (91 :: strU (r"R") ++ [93, 13, 10, 13, 10])) =
      .ok (.mk (strU (r"R")) [] []) :=
  (c5_driver_checks _ (91 :: strU (r"R") ++ [93, 13, 10, 13, 10])
      [.mk (strU (r"R")) [] []] [] (by rfl) (by rfl)).2 _ rfl rfl

/-- Claim C6: the dword/qword decoder re-encodes the number it extracted from
the fixed-width literal and compares with the original case-insensitively;
whenever that comparison fails the whole parse fails with an error — it never
falls back to another rendering at decode time. -/
theorem c6_strict_numeric (size : Nat) (l : List CodeUnit)
    (h : icaseEq (hexPad (2 * size) (wstreamHexVal size (l.take (2 * size))))
          (l.take (2 * size)) = false) :
    readIntegralValue size l = .error .unexpected := by
  unfold readIntegralValue
  by_cases hlen : l.length ≤ 2 * size
  · simp [hlen]
  · simp [hlen, h]

/-- Claim C6, witness: the theorem applied to the literal `0000000g`, whose
numeric read yields 0 and whose re-encoding `00000000` differs from it. -/
theorem c6_strict_numeric_witness :
    icaseEq (hexPad (2 * 4) (wstreamHexVal 4 ((strU (r"0000000g") ++ [13, 10]).take (2 * 4))))
        ((strU (r"0000000g") ++ [13, 10]).take (2 * 4)) = false ∧
    readIntegralValue 4 (strU (r"0000000g") ++ [13, 10]) = .error .unexpected :=
  ⟨by decide, c6_strict_numeric 4 (strU (r"0000000g") ++ [13, 10]) (by decide)⟩

theorem getLast?_cons_ne (c : CodeUnit) (r : List CodeUnit) (h : r ≠ []) :
    (c :: r).getLast? = r.getLast? := by
  match r, h with
  | b :: l, _ => exact List.getLast?_cons_cons

theorem takeSeg_fst_snd (c : CodeUnit) (r : List CodeUnit) (hc : c ≠ 0) :
    takeSeg (c :: r) = (c :: (takeSeg r).1, (takeSeg r).2) := by
  match c, hc with
  | c + 1, _ => rfl

theorem takeSeg_len : ∀ (l : List CodeUnit), l ≠ [] → (takeSeg l).2.length < l.length := by
  intro l
  induction l with
  | nil => intro h; exact absurd rfl h
  | cons c r ih =>
    intro _
    by_cases hc : c = 0
    · subst hc; simp [takeSeg]
    · rw [takeSeg_fst_snd c r hc]
      simp only [List.length_cons]
      by_cases hr : r = []
      · subst hr
        simp [takeSeg]
      · exact Nat.lt_succ_of_lt (ih hr)

theorem takeSeg_last : ∀ (l : List CodeUnit), l.getLast? = some 0 →
    (takeSeg l).2 ≠ [] → (takeSeg l).2.getLast? = some 0 := by
  intro l
  induction l with
  | nil => intro h; simp at h
  | cons c r ih =>
    intro hlast hne
    by_cases hc : c = 0
    · subst hc
      simp only [takeSeg] at hne ⊢
      rw [getLast?_cons_ne 0 r hne] at hlast
      exact hlast
    · rw [takeSeg_fst_snd c r hc] at hne ⊢
      have hr : r ≠ [] := by
        rintro rfl
        simp [takeSeg] at hne
      rw [getLast?_cons_ne c r hr] at hlast
      exact ih hlast hne

theorem splitSegsAux_stable : ∀ (f f' : Nat) (l : List CodeUnit),
    l.length < f → l.length < f' → splitSegsAux f l = splitSegsAux f' l := by
  intro f
  induction f with
  | zero => intro f' l h; omega
  | succ f ih =>
    intro f' l h h'
    match f', l with
    | f' + 1, [] => rfl
    | f' + 1, c :: r =>
      simp only [splitSegsAux]
      have hlt := takeSeg_len (c :: r) (by simp)
      rw [ih f' (takeSeg (c :: r)).2 (by omega) (by omega)]

theorem splitSegs_cons (l : List CodeUnit) (h : l ≠ []) :
    splitSegs l = (takeSeg l).1 :: splitSegs (takeSeg l).2 := by
  match l, h with
  | c :: r, _ =>
    show splitSegsAux ((c :: r).length + 1) (c :: r) = _
    simp only [splitSegsAux]
    have hlt := takeSeg_len (c :: r) (by simp)
    rw [splitSegsAux_stable ((c :: r).length) ((takeSeg (c :: r)).2.length + 1)
          (takeSeg (c :: r)).2 (by omega) (by omega)]
    rfl

theorem escMulti_cons (c : CodeUnit) (s : List CodeUnit) :
    escMulti (c :: s) = escFullChar c ++ escMulti s := by
  simp [escMulti]

theorem renderOneSeg_eq : ∀ (l : List CodeUnit), l.getLast? = some 0 →
    renderOneSeg l = (escMulti (takeSeg l).1 ++ [34], (takeSeg l).2) := by
  intro l
  induction l with
  | nil => intro h; simp at h
  | cons c r ih =>
    intro hlast
    by_cases hc : c = 0
    · subst hc
      simp [renderOneSeg, takeSeg, escMulti]
    · have hr : r ≠ [] := by
        rintro rfl
        simp at hlast
        exact hc hlast
      rw [getLast?_cons_ne c r hr] at hlast
      rw [takeSeg_fst_snd c r hc, escMulti_cons]
      match c, hc with
      | c + 1, _ =>
        simp only [renderOneSeg]
        rw [ih hlast]
        simp

theorem splitSegs_nil : splitSegs [] = [] := rfl

theorem multiSzLoopAux_eq_seg : ∀ (fuel : Nat) (rem pending : List CodeUnit) (cur first : Nat)
    (out : List CodeUnit), rem ≠ [] → rem.getLast? = some 0 → rem.length < fuel →
    multiSzLoopAux fuel rem pending cur first out =
      out ++ pending ++ multiSzSegLoop (splitSegs rem) pending.length cur first := by
  intro fuel
  induction fuel with
  | zero => intro rem _ _ _ _ _ _ hf; omega
  | succ fuel ih =>
    intro rem pending cur first out hne hlast hf
    match rem, hne with
    | c :: rem', _ =>
      simp only [multiSzLoopAux]
      rw [renderOneSeg_eq (c :: rem') hlast]
      rw [splitSegs_cons (c :: rem') (by simp)]
      set s := (takeSeg (c :: rem')).1 with hs
      set r := (takeSeg (c :: rem')).2 with hr
      by_cases hrnil : r = []
      · rw [if_pos hrnil, hrnil, splitSegs_nil]
        simp [multiSzSegLoop]
      · rw [if_neg hrnil]
        rw [splitSegs_cons r hrnil]
        have hrlast : r.getLast? = some 0 := takeSeg_last (c :: rem') hlast hrnil
        have hrlen : r.length < fuel := by
          have := takeSeg_len (c :: rem') (by simp)
          rw [← hr] at this
          simp only [List.length_cons] at this hf
          omega
        simp only [multiSzSegLoop]
        have hcond : (pending ++ 34 :: (escMulti s ++ [34]) ++ [44]).length =
            pending.length + (34 :: escMulti s ++ [34, 44]).length := by
          simp
        rw [hcond]
        by_cases hwrap : cur + (pending.length + (34 :: escMulti s ++ [34, 44]).length) > 78
        · rw [if_pos hwrap, if_pos hwrap]
          have hIH := ih r (List.replicate first 32) first first
              (out ++ (pending ++ 34 :: (escMulti s ++ [34]) ++ [44]) ++ [92, 13, 10])
              hrnil hrlast hrlen
          rw [hIH, ← splitSegs_cons r hrnil]
          simp [List.append_assoc]
        · rw [if_neg hwrap, if_neg hwrap]
          have hIH := ih r (pending ++ 34 :: (escMulti s ++ [34]) ++ [44])
              (cur + (pending.length + (34 :: escMulti s ++ [34, 44]).length)) first out
              hrnil hrlast hrlen
          rw [hcond] at hIH
          rw [hIH, ← splitSegs_cons r hrnil]
          simp [List.append_assoc]

/-- Claim C8, amended: for every multi-string rendering whose preconditions
hold (even byte length, non-empty, null-terminated), the rendition equals the
type specifier and colon followed by the segment loop in which, after
appending each quoted string and its comma separator, the tracked counter is
advanced by the full length of the output accumulated since the last break
(type prefix or leading spaces included, so it can exceed the true column),
and a continuation backslash-CRLF followed by a number of leading spaces equal
to the original prefix length is emitted exactly when that counter exceeds 78
(the 80-column limit less 2), the counter resetting to the prefix length. -/
theorem c8_wrap_amended (first : Nat) (spec : List CodeUnit) (v : RegistryValue)
    (heven : v.BinaryValue.length % 2 = 0)
    (hne : bytesToWchars v.BinaryValue ≠ [])
    (hlast : (bytesToWchars v.BinaryValue).getLast? = some 0) :
    renderMultiSzValue first spec v =
      spec ++ [58] ++ multiSzSegLoop (splitSegs (bytesToWchars v.BinaryValue))
        (spec.length + 1) first first := by
  unfold renderMultiSzValue
  rw [if_neg (by omega)]
  simp only []
  rw [if_neg hne, if_neg (by simp [hlast])]
  rw [multiSzLoopAux_eq_seg ((bytesToWchars v.BinaryValue).length + 1)
        (bytesToWchars v.BinaryValue) (spec ++ [58]) first first [] hne hlast (by omega)]
  simp

/-- Claim C8, witness: the amended characterisation applied to a concrete
three-string value with prefix length 2. -/
theorem c8_wrap_amended_witness :
    renderMultiSzValue 2 (strU (r"multi_sz"))
        ⟨[], REG_MULTI_SZ, wcharsToBytes [65, 0, 66, 66, 0, 67, 0]⟩ =
      strU (r"multi_sz") ++ [58] ++
        multiSzSegLoop (splitSegs (bytesToWchars (wcharsToBytes [65, 0, 66, 66, 0, 67, 0])))
          ((strU (r"multi_sz")).length + 1) 2 2 :=
  c8_wrap_amended 2 (strU (r"multi_sz"))
    ⟨[], REG_MULTI_SZ, wcharsToBytes [65, 0, 66, 66, 0, 67, 0]⟩
    (by decide) (by decide) (by decide)

theorem escBackslash_cons_ne (c : CodeUnit) (t : List CodeUnit) (h : c ≠ 92) :
    escBackslash (c :: t) = c :: escBackslash t := by
  rw [escBackslash.eq_def]
  split
  · simp_all
  · simp_all
  · rename_i c2 rest2 hne2 heq
    injection heq with h1 h2
    subst h1
    subst h2
    rfl

theorem escQuote_cons_ne (c : CodeUnit) (t : List CodeUnit) (h : c ≠ 34) :
    escQuote (c :: t) = c :: escQuote t := by
  rw [escQuote.eq_def]
  split
  · simp_all
  · simp_all
  · rename_i c2 rest2 hne2 heq
    injection heq with h1 h2
    subst h1
    subst h2
    rfl

theorem escLF_cons_ne (c : CodeUnit) (t : List CodeUnit) (h : c ≠ 10) :
    escLF (c :: t) = c :: escLF t := by
  rw [escLF.eq_def]
  split
  · simp_all
  · simp_all
  · rename_i c2 rest2 hne2 heq
    injection heq with h1 h2
    subst h1
    subst h2
    rfl

theorem unescCRLF_cons_ne (c : CodeUnit) (t : List CodeUnit)
    (h : c ≠ 13 ∨ t.head? ≠ some 10) :
    unescCRLF (c :: t) = c :: unescCRLF t := by
  rw [unescCRLF.eq_def]
  split
  · simp_all
  · rename_i heq
    injection heq with h1 h2
    subst h1
    subst h2
    simp at h
  · rename_i c2 rest2 hne2 heq
    injection heq with h1 h2
    subst h1
    subst h2
    rfl

theorem escName_cons (c : CodeUnit) (t : List CodeUnit) :
    escName (c :: t) = escFullChar c ++ escName t := by
  by_cases h92 : c = 92
  · subst h92; rfl
  · by_cases h34 : c = 34
    · subst h34; rfl
    · by_cases h10 : c = 10
      · subst h10; rfl
      · unfold escName escFullChar
        rw [escBackslash_cons_ne c t h92, escQuote_cons_ne c (escBackslash t) h34,
            escLF_cons_ne c (escQuote (escBackslash t)) h10]
        simp [h92, h34, h10]

theorem escName_eq_escMulti (l : List CodeUnit) : escName l = escMulti l := by
  induction l with
  | nil => rfl
  | cons c t ih => rw [escName_cons, escMulti_cons, ih]

theorem escLF_append (a b : List CodeUnit) : escLF (a ++ b) = escLF a ++ escLF b := by
  induction a with
  | nil => rfl
  | cons c t ih =>
    by_cases h10 : c = 10
    · subst h10
      simp only [List.cons_append]
      rw [show escLF (10 :: (t ++ b)) = 13 :: 10 :: escLF (t ++ b) from rfl, ih]
      rfl
    · simp only [List.cons_append]
      rw [escLF_cons_ne c (t ++ b) h10, escLF_cons_ne c t h10, ih]
      rfl

theorem escLF_eq_nil (l : List CodeUnit) : escLF l = [] ↔ l = [] := by
  constructor
  · intro h
    match l with
    | [] => rfl
    | 10 :: t => simp [escLF] at h
    | c :: t =>
      by_cases h10 : c = 10
      · subst h10; simp [escLF] at h
      · rw [escLF_cons_ne c t h10] at h
        simp at h
  · rintro rfl; rfl

theorem escLF_head_ne_10 (l : List CodeUnit) : (escLF l).head? ≠ some 10 := by
  match l with
  | [] => simp [escLF]
  | c :: t =>
    by_cases h10 : c = 10
    · subst h10
      rw [show escLF (10 :: t) = 13 :: 10 :: escLF t from rfl]
      simp
    · rw [escLF_cons_ne c t h10]
      simp [h10]

theorem unescCRLF_escLF (l : List CodeUnit) : unescCRLF (escLF l) = l := by
  induction l with
  | nil => rfl
  | cons c t ih =>
    by_cases h10 : c = 10
    · subst h10
      rw [show escLF (10 :: t) = 13 :: 10 :: escLF t from rfl,
          show unescCRLF (13 :: 10 :: escLF t) = 10 :: unescCRLF (escLF t) from rfl, ih]
    · rw [escLF_cons_ne c t h10,
          unescCRLF_cons_ne c (escLF t) (Or.inr (escLF_head_ne_10 t)), ih]

theorem escMulti_nil : escMulti [] = [] := rfl

theorem escMulti_append_head_ne_10 (s t2 : List CodeUnit) :
    (escMulti s ++ 34 :: t2).head? ≠ some 10 := by
  match s with
  | [] =>
    rw [escMulti_nil]
    simp
  | c :: s2 =>
    rw [escMulti_cons]
    unfold escFullChar
    by_cases h10 : c = 10
    · simp [h10]
    · by_cases h9234 : c = 92 ∨ c = 34
      · simp [h10, h9234]
      · simp [h10, h9234]

theorem readQuotedAux_cons_ne (c : CodeUnit) (rest : List CodeUnit)
    (hne : rest ≠ []) (h34 : c ≠ 34) (h92 : c ≠ 92)
    (h13 : c ≠ 13 ∨ rest.head? ≠ some 10) :
    readQuotedAux (c :: rest) = (readQuotedAux rest).map (fun p => (c :: p.1, p.2)) := by
  rw [readQuotedAux.eq_def]
  split
  · simp_all
  · rename_i heq
    injection heq with h1 h2
    exact absurd h1 h34
  · rename_i heq
    rename_i x
    match x, heq with
    | x, heq =>
      injection heq with h1 h2
      exact absurd h2 hne
  · rename_i c2 rest2 heq
    injection heq with h1 h2
    exact absurd h1 h92
  · rename_i heq
    injection heq with h1 h2
    subst h1
    rcases h13 with h | h
    · exact absurd rfl h
    · rw [h2] at h
      simp at h
  · rename_i c2 rest2 heq
    injection heq with h1 h2
    subst h1
    rcases h13 with h | h
    · exact absurd rfl h
    · rw [h2] at h
      simp at h
  · rename_i c2 rest2 hg1 hg2 hg3 heq
    injection heq with h1 h2
    subst h1
    subst h2
    rfl

theorem readQuotedAux_quote (t : List CodeUnit) : readQuotedAux (34 :: t) = .ok ([], t) := by
  rw [readQuotedAux.eq_def]
  split <;> simp_all

theorem readQuotedAux_esc (c : CodeUnit) (t : List CodeUnit) :
    readQuotedAux (92 :: c :: t) = (readQuotedAux t).map (fun p => (c :: p.1, p.2)) := by
  rw [readQuotedAux.eq_def]

theorem readQuotedAux_crlf (c2 : CodeUnit) (t : List CodeUnit) :
    readQuotedAux (13 :: 10 :: c2 :: t) =
      (readQuotedAux (c2 :: t)).map (fun p => (10 :: p.1, p.2)) := by
  rw [readQuotedAux.eq_def]

theorem readQuotedAux_escMulti : ∀ (s t : List CodeUnit),
    readQuotedAux (escMulti s ++ 34 :: t) = .ok (s, t) := by
  intro s
  induction s with
  | nil =>
    intro t
    rw [escMulti_nil, List.nil_append, readQuotedAux_quote]
  | cons c s2 ih =>
    intro t
    rw [escMulti_cons, List.append_assoc]
    have hRne : escMulti s2 ++ 34 :: t ≠ [] := by simp
    obtain ⟨r0, R2, hR⟩ := List.exists_cons_of_ne_nil hRne
    by_cases h92 : c = 92
    · subst h92
      rw [show escFullChar 92 = [92, 92] from rfl]
      rw [show ([92, 92] : List CodeUnit) ++ (escMulti s2 ++ 34 :: t) =
            92 :: 92 :: (escMulti s2 ++ 34 :: t) from rfl]
      rw [readQuotedAux_esc, ih t]
      rfl
    · by_cases h34 : c = 34
      · subst h34
        rw [show escFullChar 34 = [92, 34] from rfl]
        rw [show ([92, 34] : List CodeUnit) ++ (escMulti s2 ++ 34 :: t) =
              92 :: 34 :: (escMulti s2 ++ 34 :: t) from rfl]
        rw [readQuotedAux_esc, ih t]
        rfl
      · by_cases h10 : c = 10
        · subst h10
          rw [show escFullChar 10 = [13, 10] from rfl]
          rw [show ([13, 10] : List CodeUnit) ++ (escMulti s2 ++ 34 :: t) =
                13 :: 10 :: (escMulti s2 ++ 34 :: t) from rfl]
          rw [hR, readQuotedAux_crlf, ← hR, ih t]
          rfl
        · rw [show escFullChar c = if c = 10 then [13, 10]
                else if c = 92 ∨ c = 34 then [92, c] else [c] from rfl]
          rw [if_neg h10, if_neg (by simp [h92, h34])]
          rw [List.singleton_append]
          rw [readQuotedAux_cons_ne c (escMulti s2 ++ 34 :: t) hRne h34 h92
                (Or.inr (escMulti_append_head_ne_10 s2 t))]
          rw [ih t]
          rfl

theorem hexDigitsAux_stable : ∀ (f f' n : Nat), n < f → n < f' →
    hexDigitsAux f n = hexDigitsAux f' n := by
  intro f
  induction f with
  | zero => intro f' n h; omega
  | succ f ih =>
    intro f' n h h'
    match f' with
    | 0 => omega
    | f' + 1 =>
      simp only [hexDigitsAux]
      by_cases hn : n = 0
      · simp [hn]
      · have hd : n / 16 < n := Nat.div_lt_self (by omega) (by omega)
        rw [if_neg hn, if_neg hn, ih f' (n / 16) (by omega) (by omega)]

theorem hexVal_hexDigitChar : ∀ d : Nat, d < 16 → hexVal (hexDigitChar d) = d := by decide

theorem isXDigitU_hexDigitChar : ∀ d : Nat, d < 16 → isXDigitU (hexDigitChar d) = true := by
  decide

theorem hexListVal_append_one (a : List CodeUnit) (c : CodeUnit) :
    hexListVal (a ++ [c]) = 16 * hexListVal a + hexVal c := by
  unfold hexListVal
  rw [List.foldl_append]
  rfl

theorem hexListVal_hexDigitsAux : ∀ (f n : Nat), n < f →
    hexListVal (hexDigitsAux f n) = n := by
  intro f
  induction f with
  | zero => intro n h; omega
  | succ f ih =>
    intro n h
    simp only [hexDigitsAux]
    by_cases hn : n = 0
    · simp [hn, hexListVal]
    · rw [if_neg hn, hexListVal_append_one,
          ih (n / 16) (by have := Nat.div_lt_self (show 0 < n by omega) (show 1 < 16 by omega); omega),
          hexVal_hexDigitChar (n % 16) (Nat.mod_lt n (by omega))]
      omega

theorem hexDigitsAux_all_xdigit : ∀ (f n : Nat),
    (hexDigitsAux f n).all isXDigitU = true := by
  intro f
  induction f with
  | zero => intro n; rfl
  | succ f ih =>
    intro n
    simp only [hexDigitsAux]
    by_cases hn : n = 0
    · simp [hn]
    · rw [if_neg hn]
      simp only [List.all_append, ih (n / 16)]
      simp [isXDigitU_hexDigitChar (n % 16) (Nat.mod_lt n (by omega))]

theorem natHex_all_xdigit (n : Nat) : (natHex n).all isXDigitU = true := by
  unfold natHex
  by_cases hn : n = 0
  · rw [if_pos hn]; decide
  · rw [if_neg hn]
    exact hexDigitsAux_all_xdigit (n + 1) n

theorem hexListVal_natHex (n : Nat) : hexListVal (natHex n) = n := by
  unfold natHex
  by_cases hn : n = 0
  · simp [hn]
    rfl
  · rw [if_neg hn]
    exact hexListVal_hexDigitsAux (n + 1) n (by omega)

theorem natHex_ne_nil (n : Nat) : natHex n ≠ [] := by
  unfold natHex
  by_cases hn : n = 0
  · simp [hn]
  · rw [if_neg hn]
    match h : hexDigitsAux (n + 1) n with
    | [] =>
      have := hexListVal_hexDigitsAux (n + 1) n (by omega)
      rw [h] at this
      simp [hexListVal] at this
      omega
    | c :: rest => simp

theorem hexDigitsAux_length_le : ∀ (f n w : Nat), n < f → n < 16 ^ w →
    (hexDigitsAux f n).length ≤ w := by
  intro f
  induction f with
  | zero => intro n w h; omega
  | succ f ih =>
    intro n w h hw
    simp only [hexDigitsAux]
    by_cases hn : n = 0
    · simp [hn]
    · rw [if_neg hn]
      match w with
      | 0 => simp at hw; omega
      | w + 1 =>
        have h1 : n / 16 < 16 ^ w := by
          rw [Nat.div_lt_iff_lt_mul (by omega)]
          calc n < 16 ^ (w + 1) := hw
          _ = 16 ^ w * 16 := by rw [Nat.pow_succ]
        have h2 : n / 16 < f := by
          have := Nat.div_lt_self (show 0 < n by omega) (show 1 < 16 by omega)
          omega
        have := ih (n / 16) w h2 h1
        simp only [List.length_append, List.length_cons, List.length_nil]
        omega

theorem natHex_length_le (n w : Nat) (hw : 1 ≤ w) (h : n < 16 ^ w) :
    (natHex n).length ≤ w := by
  unfold natHex
  by_cases hn : n = 0
  · simp [hn]; omega
  · rw [if_neg hn]
    exact hexDigitsAux_length_le (n + 1) n w (by omega) h

theorem hexPad_length (w n : Nat) (hw : 1 ≤ w) (h : n < 16 ^ w) :
    (hexPad w n).length = w := by
  unfold hexPad
  have := natHex_length_le n w hw h
  simp only [List.length_append, List.length_replicate]
  omega

theorem hexListVal_zeros (k : Nat) (d : List CodeUnit) :
    hexListVal (List.replicate k 48 ++ d) = hexListVal d := by
  induction k with
  | zero => rfl
  | succ k ih =>
    rw [List.replicate_succ, List.cons_append]
    show hexListVal (48 :: (List.replicate k 48 ++ d)) = hexListVal d
    unfold hexListVal at ih ⊢
    simp only [List.foldl_cons]
    rw [show (16 * 0 + hexVal 48 : Nat) = 0 from rfl]
    exact ih

theorem hexListVal_hexPad (w n : Nat) : hexListVal (hexPad w n) = n := by
  unfold hexPad
  rw [hexListVal_zeros, hexListVal_natHex]

theorem hexPad_all_xdigit (w n : Nat) : (hexPad w n).all isXDigitU = true := by
  unfold hexPad
  rw [List.all_append]
  simp only [natHex_all_xdigit n, Bool.and_true]
  induction (w - (natHex n).length) with
  | zero => rfl
  | succ k ih =>
    rw [List.replicate_succ]
    simp_all [isXDigitU]

theorem icaseEq_refl (a : List CodeUnit) : icaseEq a a = true := by
  simp [icaseEq]

theorem takeWhile_all_eq (a : List CodeUnit) (p : CodeUnit → Bool) (h : a.all p = true) :
    a.takeWhile p = a := by
  induction a with
  | nil => rfl
  | cons c t ih =>
    simp only [List.all_cons, Bool.and_eq_true] at h
    rw [List.takeWhile_cons, if_pos h.1, ih h.2]

theorem leVal_lt (bs : List Nat) (h : bytesOK bs = true) :
    leVal bs < 16 ^ (2 * bs.length) := by
  induction bs with
  | nil => simp [leVal]
  | cons b rest ih =>
    simp only [bytesOK, List.all_cons, Bool.and_eq_true, decide_eq_true_eq] at h
    have hrest := ih h.2
    simp only [leVal, List.length_cons]
    have hpow : 16 ^ (2 * (rest.length + 1)) = 16 ^ (2 * rest.length) * 256 := by
      rw [show 2 * (rest.length + 1) = 2 * rest.length + 2 by omega, Nat.pow_add]
    rw [hpow]
    have hb := h.1
    nlinarith [hrest, hb]

theorem leBytes_leVal (bs : List Nat) (h : bytesOK bs = true) :
    leBytes bs.length (leVal bs) = bs := by
  induction bs with
  | nil => rfl
  | cons b rest ih =>
    simp only [bytesOK, List.all_cons, Bool.and_eq_true, decide_eq_true_eq] at h
    simp only [leVal, List.length_cons, leBytes]
    have h1 : (b + 256 * leVal rest) % 256 = b := by
      rw [Nat.add_mul_mod_self_left, Nat.mod_eq_of_lt h.1]
    have h2 : (b + 256 * leVal rest) / 256 = leVal rest := by
      rw [Nat.add_mul_div_left b (leVal rest) (by omega), Nat.div_eq_of_lt h.1]
      omega
    rw [h1, h2, ih h.2]

theorem expectConsume_self_append (p t : List CodeUnit) :
    expectConsume p (p ++ t) = some t := by
  unfold expectConsume
  rw [if_pos (by rw [List.isPrefixOf_iff_prefix]; exact List.prefix_append p t), List.drop_left]

theorem expectConsume_cons_ne (a b : CodeUnit) (p l : List CodeUnit) (h : a ≠ b) :
    expectConsume (a :: p) (b :: l) = none := by
  have hnp : ¬ ((a :: p).isPrefixOf (b :: l) = true) := by
    rw [List.isPrefixOf_iff_prefix]
    intro hp
    obtain ⟨s, hs⟩ := hp
    rw [List.cons_append] at hs
    injection hs with h1 _
    exact h h1
  unfold expectConsume
  rw [if_neg hnp]

theorem takeWhile_append_stop (a : List CodeUnit) (b : CodeUnit) (r : List CodeUnit)
    (p : CodeUnit → Bool) (ha : a.all p = true) (hb : p b = false) :
    (a ++ b :: r).takeWhile p = a := by
  induction a with
  | nil => simp [List.takeWhile_cons, hb]
  | cons c t ih =>
    simp only [List.all_cons, Bool.and_eq_true] at ha
    rw [List.cons_append, List.takeWhile_cons, if_pos ha.1, ih ha.2]

theorem xdigit_not_ws (c : Nat) (h : isXDigitU c = true) : isStreamWS c = false := by
  have h' : ((48 ≤ c ∧ c ≤ 57) ∨ (97 ≤ c ∧ c ≤ 102)) ∨ (65 ≤ c ∧ c ≤ 70) := by
    unfold isXDigitU at h
    simpa only [Bool.or_eq_true, Bool.and_eq_true, decide_eq_true_eq] using h
  unfold isStreamWS
  suffices hs : ¬(c = 32) ∧ (¬(9 ≤ c) ∨ ¬(c ≤ 13)) by
    simp only [Bool.or_eq_false_iff, Bool.and_eq_false_iff, decide_eq_false_iff_not]
    exact hs
  omega

theorem xdigit_ne (c : Nat) (h : isXDigitU c = true) :
    c ≠ 13 ∧ c ≠ 10 ∧ c ≠ 44 ∧ c ≠ 92 ∧ c ≠ 32 ∧ c ≠ 43 ∧ c ≠ 45 ∧ c ≠ 34 := by
  have h' : ((48 ≤ c ∧ c ≤ 57) ∨ (97 ≤ c ∧ c ≤ 102)) ∨ (65 ≤ c ∧ c ≤ 70) := by
    unfold isXDigitU at h
    simpa only [Bool.or_eq_true, Bool.and_eq_true, decide_eq_true_eq] using h
  omega

theorem dropWhile_ws_xdigit (l : List CodeUnit) (h : l.all isXDigitU = true) :
    l.dropWhile isStreamWS = l := by
  match l with
  | [] => rfl
  | c :: t =>
    simp only [List.all_cons, Bool.and_eq_true] at h
    rw [List.dropWhile_cons, if_neg (by rw [xdigit_not_ws c h.1]; simp)]

theorem wstreamHexVal_xdigits (size : Nat) (s : List CodeUnit) (h : s.all isXDigitU = true) :
    wstreamHexVal size s = hexListVal s := by
  match s with
  | [] => rfl
  | c :: s' =>
    have hc : isXDigitU c = true := by
      simp only [List.all_cons, Bool.and_eq_true] at h
      exact h.1
    unfold wstreamHexVal
    rw [dropWhile_ws_xdigit _ h]
    have hne := xdigit_ne c hc
    split
    · rename_i r heq
      injection heq with h1 _
      exact absurd h1 hne.2.2.2.2.2.1
    · rename_i r heq
      injection heq with h1 _
      exact absurd h1 hne.2.2.2.2.2.2.1
    · rename_i heq h43 h45
      rw [takeWhile_all_eq _ _ h]

theorem readIntegralValue_hexPad (size V : Nat) (t : List CodeUnit)
    (hs : 1 ≤ size) (hV : V < 16 ^ (2 * size)) :
    readIntegralValue size (hexPad (2 * size) V ++ 13 :: 10 :: t) = .ok (leBytes size V, t) := by
  have hlen : (hexPad (2 * size) V).length = 2 * size :=
    hexPad_length (2 * size) V (by omega) hV
  unfold readIntegralValue
  rw [if_neg (by simp only [List.length_append, List.length_cons, hlen]; omega)]
  simp only [List.take_left' hlen, List.drop_left' hlen,
    wstreamHexVal_xdigits size (hexPad (2 * size) V) (hexPad_all_xdigit (2 * size) V),
    hexListVal_hexPad, icaseEq_refl, if_true]
  rw [show (13 : CodeUnit) :: 10 :: t = [13, 10] ++ t from rfl, expectConsume_self_append]

theorem hexListVal_pair (d1 d2 : CodeUnit) :
    hexListVal [d1, d2] = 16 * hexVal d1 + hexVal d2 := by
  unfold hexListVal
  simp [List.foldl]

theorem hexPad_two_bytes (b : Nat) (hb : b < 256) :
    ∃ d1 d2, hexPad 2 b = [d1, d2] ∧ isXDigitU d1 = true ∧ isXDigitU d2 = true ∧
      16 * hexVal d1 + hexVal d2 = b := by
  have hlen : (hexPad 2 b).length = 2 :=
    hexPad_length 2 b (by omega) (lt_of_lt_of_eq hb (by norm_num : (256 : Nat) = 16 ^ 2))
  match hp : hexPad 2 b with
  | [] => rw [hp] at hlen; simp at hlen
  | [d] => rw [hp] at hlen; simp at hlen
  | d1 :: d2 :: d3 :: r => rw [hp] at hlen; simp at hlen
  | [d1, d2] =>
    have hall := hexPad_all_xdigit 2 b
    rw [hp] at hall
    simp only [List.all_cons, List.all_nil, Bool.and_eq_true, Bool.and_true] at hall
    have hval := hexListVal_hexPad 2 b
    rw [hp, hexListVal_pair] at hval
    exact ⟨d1, d2, rfl, hall.1, hall.2, hval⟩

theorem dropLeadingSpaces_sp (l : List CodeUnit) :
    dropLeadingSpaces (32 :: l) = dropLeadingSpaces l := by
  simp [dropLeadingSpaces, List.dropWhile_cons]

theorem dropLeadingSpaces_cons_ne (c : CodeUnit) (l : List CodeUnit) (h : c ≠ 32) :
    dropLeadingSpaces (c :: l) = c :: l := by
  simp [dropLeadingSpaces, List.dropWhile_cons, h]

theorem dropLeadingSpaces_replicate (k : Nat) (c : CodeUnit) (l : List CodeUnit) (h : c ≠ 32) :
    dropLeadingSpaces (List.replicate k 32 ++ c :: l) = c :: l := by
  induction k with
  | zero => simpa using dropLeadingSpaces_cons_ne c l h
  | succ k ih => rw [List.replicate_succ, List.cons_append, dropLeadingSpaces_sp, ih]

theorem renderHexBytes_cons2 (b r0 : Nat) (rr : List Nat) (cur : Nat) :
    renderHexBytes (b :: r0 :: rr) cur =
      if cur + 3 > 76 then
        hexPad 2 b ++ [44, 92, 13, 10, 32, 32] ++ renderHexBytes (r0 :: rr) 2
      else
        hexPad 2 b ++ [44] ++ renderHexBytes (r0 :: rr) (cur + 3) := rfl

theorem renderHexBytes_head (r0 : Nat) (rr : List Nat) (cur : Nat) :
    ∃ R, renderHexBytes (r0 :: rr) cur = hexPad 2 r0 ++ R := by
  match rr with
  | [] => exact ⟨[], by simp [renderHexBytes]⟩
  | r1 :: rs =>
    rw [renderHexBytes_cons2]
    by_cases hw : cur + 3 > 76
    · exact ⟨[44, 92, 13, 10, 32, 32] ++ renderHexBytes (r1 :: rs) 2,
        by rw [if_pos hw, List.append_assoc]⟩
    · exact ⟨[44] ++ renderHexBytes (r1 :: rs) (cur + 3), by rw [if_neg hw, List.append_assoc]⟩

theorem readHexAux_term (f : Nat) (t : List CodeUnit) (acc : List Nat) :
    readHexadecimalDataAux (f + 1) (13 :: 10 :: t) acc = .ok (acc.reverse, t) := by
  simp only [readHexadecimalDataAux]

theorem readHexAux_step_comma (f : Nat) (l : List CodeUnit) (acc : List Nat) :
    readHexadecimalDataAux (f + 1) (44 :: l) acc = readHexadecimalDataAux f l acc := by
  simp only [readHexadecimalDataAux]

theorem readHexAux_step_wrap (f : Nat) (l : List CodeUnit) (acc : List Nat) :
    readHexadecimalDataAux (f + 1) (92 :: 13 :: 10 :: l) acc =
      readHexadecimalDataAux f (dropLeadingSpaces l) acc := by
  simp only [readHexadecimalDataAux]

theorem readHexAux_step_digits (f : Nat) (d1 d2 : CodeUnit) (l : List CodeUnit) (acc : List Nat)
    (h1 : isXDigitU d1 = true) (h2 : isXDigitU d2 = true) :
    readHexadecimalDataAux (f + 1) (d1 :: d2 :: l) acc =
      readHexadecimalDataAux f l ((16 * hexVal d1 + hexVal d2) :: acc) := by
  have hne1 := xdigit_ne d1 h1
  rw [readHexadecimalDataAux.eq_def]
  split
  · omega
  · split <;> simp_all

theorem dropLeadingSpaces_renderHex (r0 : Nat) (rr : List Nat) (cur : Nat) (h : r0 < 256)
    (s : List CodeUnit) :
    dropLeadingSpaces (renderHexBytes (r0 :: rr) cur ++ s) =
      renderHexBytes (r0 :: rr) cur ++ s := by
  obtain ⟨R, hR⟩ := renderHexBytes_head r0 rr cur
  obtain ⟨d1, d2, hp, hx, _, _⟩ := hexPad_two_bytes r0 h
  rw [hR, hp]
  simp only [List.cons_append, List.nil_append, List.append_assoc]
  exact dropLeadingSpaces_cons_ne d1 _ (xdigit_ne d1 hx).2.2.2.2.1

theorem readHexAux_render : ∀ (bytes : List Nat), bytesOK bytes = true →
    ∀ (fuel cur : Nat) (acc : List Nat) (t : List CodeUnit),
    (renderHexBytes bytes cur).length + t.length + 3 ≤ fuel →
    readHexadecimalDataAux fuel (renderHexBytes bytes cur ++ 13 :: 10 :: t) acc
      = .ok (acc.reverse ++ bytes, t) := by
  intro bytes
  induction bytes with
  | nil =>
    intro _ fuel cur acc t hfuel
    obtain ⟨f, rfl⟩ : ∃ f, fuel = f + 1 := ⟨fuel - 1, by omega⟩
    rw [show renderHexBytes [] cur = [] from rfl, List.nil_append, readHexAux_term]
    simp
  | cons b rest ih =>
    intro hb fuel cur acc t hfuel
    have hb' : b < 256 ∧ bytesOK rest = true := by
      simp only [bytesOK, List.all_cons, Bool.and_eq_true, decide_eq_true_eq] at hb
      exact ⟨hb.1, hb.2⟩
    obtain ⟨d1, d2, hp2, hd1, hd2, hval⟩ := hexPad_two_bytes b hb'.1
    cases rest with
    | nil =>
      have hr : renderHexBytes [b] cur = [d1, d2] := by
        rw [show renderHexBytes [b] cur = hexPad 2 b from rfl, hp2]
      rw [hr] at hfuel ⊢
      simp only [List.length_cons, List.length_nil] at hfuel
      obtain ⟨f2, rfl⟩ : ∃ f2, fuel = f2 + 1 + 1 := ⟨fuel - 2, by omega⟩
      rw [List.cons_append, List.cons_append, List.nil_append,
          readHexAux_step_digits _ _ _ _ _ hd1 hd2, hval, readHexAux_term]
      simp
    | cons r0 rr =>
      have hr0 : r0 < 256 := by
        have := hb'.2
        simp only [bytesOK, List.all_cons, Bool.and_eq_true, decide_eq_true_eq] at this
        exact this.1
      rw [renderHexBytes_cons2] at hfuel ⊢
      by_cases hw : cur + 3 > 76
      · rw [if_pos hw, hp2] at hfuel ⊢
        simp only [List.length_append, List.length_cons, List.length_nil] at hfuel
        obtain ⟨f3, rfl⟩ : ∃ f3, fuel = f3 + 1 + 1 + 1 := ⟨fuel - 3, by omega⟩
        simp only [List.cons_append, List.nil_append, List.append_assoc]
        rw [readHexAux_step_digits _ _ _ _ _ hd1 hd2, hval, readHexAux_step_comma,
            readHexAux_step_wrap, dropLeadingSpaces_sp, dropLeadingSpaces_sp,
            dropLeadingSpaces_renderHex r0 rr 2 hr0,
            ih hb'.2 f3 2 (b :: acc) t (by omega)]
        simp
      · rw [if_neg hw, hp2] at hfuel ⊢
        simp only [List.length_append, List.length_cons, List.length_nil] at hfuel
        obtain ⟨f2, rfl⟩ : ∃ f2, fuel = f2 + 1 + 1 := ⟨fuel - 2, by omega⟩
        simp only [List.cons_append, List.nil_append, List.append_assoc]
        rw [readHexAux_step_digits _ _ _ _ _ hd1 hd2, hval, readHexAux_step_comma,
            ih hb'.2 f2 (cur + 3) (b :: acc) t (by omega)]
        simp

theorem readHexadecimalData_render (bytes : List Nat) (cur : Nat) (t : List CodeUnit)
    (hb : bytesOK bytes = true) :
    readHexadecimalData (renderHexBytes bytes cur ++ 13 :: 10 :: t) = .ok (bytes, t) := by
  unfold readHexadecimalData
  rw [readHexAux_render bytes hb _ cur [] t
    (by simp only [List.length_append, List.length_cons]; omega)]
  simp

theorem readName_renderName (name t : List CodeUnit) :
    readNameOfRegistryValue (renderValueName name ++ t) = .ok (name, 61 :: t) := by
  unfold renderValueName
  by_cases h : name = []
  · rw [if_pos h, h]
    rfl
  · rw [if_neg h]
    simp only [List.cons_append, List.append_assoc, List.nil_append]
    show readQuotedAux (escName name ++ 34 :: 61 :: t) = _
    rw [escName_eq_escMulti, readQuotedAux_escMulti]

theorem readOptType_hexPrefix (typ : Nat) (x : List CodeUnit) (ht : typ < 4294967296) :
    readOptionalBinaryValueType .Hexadecimal
      ((if typ = REG_BINARY then [] else 40 :: (natHex typ ++ [41])) ++ 58 :: x) =
      .ok (typ, 58 :: x) := by
  by_cases h3 : typ = REG_BINARY
  · rw [if_pos h3, List.nil_append, h3]
    rfl
  · rw [if_neg h3]
    simp only [List.cons_append, List.append_assoc, List.nil_append]
    simp only [readOptionalBinaryValueType]
    rw [takeWhile_append_stop _ 41 _ _ (natHex_all_xdigit typ) (by decide),
        if_neg (by simp only [List.length_eq_zero]; exact natHex_ne_nil typ),
        List.drop_left, hexListVal_natHex]
    simp [Nat.min_eq_left (by omega : typ ≤ 4294967295)]

theorem readStringValue_esc (s T : List CodeUnit) :
    readStringValue (34 :: (escMulti s ++ 34 :: T)) = .ok (wcharsToBytes (s ++ [0]), T) := by
  simp only [readStringValue, readQuotedAux_escMulti]

theorem wcharsToBytes_append (a b : List CodeUnit) :
    wcharsToBytes (a ++ b) = wcharsToBytes a ++ wcharsToBytes b := by
  simp [wcharsToBytes]

theorem wcharsToBytes_bytesToWchars : ∀ (bs : List Nat), bytesOK bs = true →
    bs.length % 2 = 0 → wcharsToBytes (bytesToWchars bs) = bs
  | [], _, _ => rfl
  | [b], _, h2 => by simp at h2
  | b0 :: b1 :: rest, h1, h2 => by
    have hr : bytesOK rest = true := by
      simp only [bytesOK, List.all_cons, Bool.and_eq_true] at h1 ⊢
      exact h1.2.2
    have hb01 : b0 < 256 ∧ b1 < 256 := by
      simp only [bytesOK, List.all_cons, Bool.and_eq_true, decide_eq_true_eq] at h1
      exact ⟨h1.1, h1.2.1⟩
    have ih := wcharsToBytes_bytesToWchars rest hr
      (by simp only [List.length_cons] at h2; omega)
    show wcharsToBytes ((b0 + 256 * b1) :: bytesToWchars rest) = _
    rw [show wcharsToBytes ((b0 + 256 * b1) :: bytesToWchars rest)
          = wcharToBytes (b0 + 256 * b1) ++ wcharsToBytes (bytesToWchars rest) from rfl, ih]
    unfold wcharToBytes
    have e1 : (b0 + 256 * b1) % 256 = b0 := by omega
    have e2 : (b0 + 256 * b1) / 256 % 256 = b1 := by omega
    rw [e1, e2]
    rfl

theorem dropLast_append_zero (l : List CodeUnit) (hne : l ≠ []) (h : l.getLast? = some 0) :
    l.dropLast ++ [0] = l := by
  have h1 := List.dropLast_append_getLast hne
  have h2 : l.getLast hne = 0 := by
    rw [List.getLast?_eq_getLast l hne] at h
    injection h
  rw [h2] at h1
  exact h1

theorem skipWrapsAux_cons_ne (fuel : Nat) (c : CodeUnit) (l : List CodeUnit) (h : c ≠ 92) :
    skipWrapsAux fuel (c :: l) = c :: l := by
  cases fuel with
  | zero => rfl
  | succ f =>
    simp only [skipWrapsAux]
    split
    · rename_i rest heq
      injection heq with h1 _
      exact absurd h1 h
    · rfl

theorem skipWrapsAux_wrap (f : Nat) (l : List CodeUnit) :
    skipWrapsAux (f + 1) (92 :: 13 :: 10 :: l) = skipWrapsAux f (dropLeadingSpaces l) := by
  simp only [skipWrapsAux]

theorem segLoop_head (s : List CodeUnit) (rest : List (List CodeUnit)) (p c f : Nat) :
    ∃ Z, multiSzSegLoop (s :: rest) p c f = 34 :: Z := by
  cases rest with
  | nil => exact ⟨escMulti s ++ [34, 13, 10], by simp only [multiSzSegLoop, List.cons_append]⟩
  | cons r1 rs =>
    simp only [multiSzSegLoop]
    by_cases hw : c + (p + (34 :: escMulti s ++ [34, 44]).length) > 78
    · rw [if_pos hw]
      exact ⟨(escMulti s ++ [34, 44]) ++
        (92 :: 13 :: 10 :: (List.replicate f 32 ++ multiSzSegLoop (r1 :: rs) f f f)),
        by simp [List.cons_append, List.append_assoc]⟩
    · rw [if_neg hw]
      exact ⟨(escMulti s ++ [34, 44]) ++
        multiSzSegLoop (r1 :: rs) (p + (34 :: escMulti s ++ [34, 44]).length)
          (c + (p + (34 :: escMulti s ++ [34, 44]).length)) f,
        by simp [List.cons_append, List.append_assoc]⟩

theorem readMSzAux_term (f : Nat) (t : List CodeUnit) (acc : List Nat) :
    readMultiSzDataAux (f + 1) (13 :: 10 :: t) acc = .ok (acc, t) := by
  simp only [readMultiSzDataAux]

theorem readMSzAux_step34 (f : Nat) (Z : List CodeUnit) (acc : List Nat) :
    readMultiSzDataAux (f + 1) (34 :: Z) acc =
      match readStringValue (34 :: Z) with
      | .ok p => readMultiSzDataAux f p.2 (acc ++ p.1)
      | .error e => .error e := by
  simp only [readMultiSzDataAux]

theorem readMSzAux_comma_to34 (f : Nat) (r Z : List CodeUnit) (acc : List Nat)
    (hskip : skipWrapsAux r.length r = 34 :: Z) :
    readMultiSzDataAux (f + 1) (44 :: r) acc = readMultiSzDataAux (f + 1) (34 :: Z) acc := by
  simp only [readMultiSzDataAux, hskip]

theorem readMSzAux_segLoop : ∀ (fuel : Nat) (segs : List (List CodeUnit)) (p c f : Nat)
    (acc : List Nat) (t : List CodeUnit), segs ≠ [] →
    (multiSzSegLoop segs p c f).length + t.length < fuel →
    readMultiSzDataAux fuel (multiSzSegLoop segs p c f ++ t) acc =
      .ok (acc ++ (segs.map (fun s => wcharsToBytes (s ++ [0]))).flatten, t) := by
  intro fuel
  induction fuel with
  | zero => intro segs p c f acc t hne hf; omega
  | succ fuel ih =>
    intro segs p c f acc t hne hf
    match segs, hne with
    | [s], _ =>
      rw [show multiSzSegLoop [s] p c f = 34 :: (escMulti s ++ [34, 13, 10]) by
        simp only [multiSzSegLoop, List.cons_append]] at hf ⊢
      simp only [List.length_cons, List.length_append] at hf
      obtain ⟨f2, rfl⟩ : ∃ f2, fuel = f2 + 1 := ⟨fuel - 1, by simp at hf; omega⟩
      simp only [List.cons_append, List.append_assoc, List.nil_append]
      rw [readMSzAux_step34, readStringValue_esc]
      show readMultiSzDataAux (f2 + 1) (13 :: 10 :: t) (acc ++ wcharsToBytes (s ++ [0])) = _
      rw [readMSzAux_term]
      simp
    | s :: r1 :: rs, _ =>
      simp only [multiSzSegLoop] at hf ⊢
      by_cases hw : c + (p + (34 :: escMulti s ++ [34, 44]).length) > 78
      · rw [if_pos hw] at hf ⊢
        obtain ⟨Zin, hZ⟩ := segLoop_head r1 rs f f f
        simp only [List.length_append, List.length_cons, List.length_replicate] at hf
        obtain ⟨f2, rfl⟩ : ∃ f2, fuel = f2 + 1 := ⟨fuel - 1, by omega⟩
        simp only [List.cons_append, List.append_assoc, List.nil_append]
        rw [readMSzAux_step34, readStringValue_esc]
        show readMultiSzDataAux (f2 + 1)
            (44 :: (92 :: 13 :: 10 :: (List.replicate f 32 ++ (multiSzSegLoop (r1 :: rs) f f f ++ t))))
            (acc ++ wcharsToBytes (s ++ [0])) = _
        have hskip : skipWrapsAux
            (92 :: 13 :: 10 :: (List.replicate f 32 ++ (multiSzSegLoop (r1 :: rs) f f f ++ t))).length
            (92 :: 13 :: 10 :: (List.replicate f 32 ++ (multiSzSegLoop (r1 :: rs) f f f ++ t)))
            = 34 :: (Zin ++ t) := by
          simp only [List.length_cons]
          rw [skipWrapsAux_wrap, hZ]
          simp only [List.cons_append]
          rw [dropLeadingSpaces_replicate f 34 (Zin ++ t) (by decide)]
          exact skipWrapsAux_cons_ne _ 34 (Zin ++ t) (by decide)
        rw [readMSzAux_comma_to34 f2 _ (Zin ++ t) _ hskip]
        have hZt : multiSzSegLoop (r1 :: rs) f f f ++ t = 34 :: (Zin ++ t) := by
          rw [hZ, List.cons_append]
        rw [← hZt, ih (r1 :: rs) f f f (acc ++ wcharsToBytes (s ++ [0])) t (by simp) (by omega)]
        simp [List.append_assoc]
      · rw [if_neg hw] at hf ⊢
        set A := p + (34 :: escMulti s ++ [34, 44]).length with hA
        obtain ⟨Zin, hZ⟩ := segLoop_head r1 rs A (c + A) f
        rw [List.length_append] at hf
        have hu : 3 ≤ (34 :: escMulti s ++ [34, 44]).length := by simp
        obtain ⟨f2, rfl⟩ : ∃ f2, fuel = f2 + 1 := ⟨fuel - 1, by omega⟩
        simp only [List.cons_append, List.append_assoc, List.nil_append]
        rw [readMSzAux_step34, readStringValue_esc]
        show readMultiSzDataAux (f2 + 1)
            (44 :: (multiSzSegLoop (r1 :: rs) A (c + A) f ++ t))
            (acc ++ wcharsToBytes (s ++ [0])) = _
        have hskip : skipWrapsAux (multiSzSegLoop (r1 :: rs) A (c + A) f ++ t).length
            (multiSzSegLoop (r1 :: rs) A (c + A) f ++ t) = 34 :: (Zin ++ t) := by
          rw [hZ, List.cons_append]
          exact skipWrapsAux_cons_ne _ 34 (Zin ++ t) (by decide)
        rw [readMSzAux_comma_to34 f2 _ (Zin ++ t) _ hskip]
        have hZt : multiSzSegLoop (r1 :: rs) A (c + A) f ++ t = 34 :: (Zin ++ t) := by
          rw [hZ, List.cons_append]
        rw [← hZt, ih (r1 :: rs) A (c + A) f (acc ++ wcharsToBytes (s ++ [0])) t (by simp)
          (by omega)]
        simp [List.append_assoc]

theorem readMultiSzData_segLoop (segs : List (List CodeUnit)) (p c f : Nat) (t : List CodeUnit)
    (hne : segs ≠ []) :
    readMultiSzData (multiSzSegLoop segs p c f ++ t) =
      .ok ((segs.map (fun s => wcharsToBytes (s ++ [0]))).flatten, t) := by
  match segs, hne with
  | s :: rest, _ =>
    cases rest with
    | nil =>
      rw [show multiSzSegLoop [s] p c f = 34 :: (escMulti s ++ [34, 13, 10]) by
        simp only [multiSzSegLoop, List.cons_append]]
      simp only [List.cons_append, List.append_assoc, List.nil_append]
      unfold readMultiSzData
      rw [readStringValue_esc]
      show readMultiSzDataAux ((13 :: 10 :: t).length + 1) (13 :: 10 :: t)
        (wcharsToBytes (s ++ [0])) = _
      simp only [List.length_cons]
      rw [readMSzAux_term]
      simp
    | cons r1 rs =>
      simp only [multiSzSegLoop]
      by_cases hw : c + (p + (34 :: escMulti s ++ [34, 44]).length) > 78
      · rw [if_pos hw]
        obtain ⟨Zin, hZ⟩ := segLoop_head r1 rs f f f
        simp only [List.cons_append, List.append_assoc, List.nil_append]
        unfold readMultiSzData
        rw [readStringValue_esc]
        show readMultiSzDataAux
            ((44 :: (92 :: 13 :: 10 ::
              (List.replicate f 32 ++ (multiSzSegLoop (r1 :: rs) f f f ++ t)))).length + 1)
            (44 :: (92 :: 13 :: 10 ::
              (List.replicate f 32 ++ (multiSzSegLoop (r1 :: rs) f f f ++ t))))
            (wcharsToBytes (s ++ [0])) = _
        simp only [List.length_cons]
        have hskip : skipWrapsAux
            (92 :: 13 :: 10 :: (List.replicate f 32 ++ (multiSzSegLoop (r1 :: rs) f f f ++ t))).length
            (92 :: 13 :: 10 :: (List.replicate f 32 ++ (multiSzSegLoop (r1 :: rs) f f f ++ t)))
            = 34 :: (Zin ++ t) := by
          simp only [List.length_cons]
          rw [skipWrapsAux_wrap, hZ]
          simp only [List.cons_append]
          rw [dropLeadingSpaces_replicate f 34 (Zin ++ t) (by decide)]
          exact skipWrapsAux_cons_ne _ 34 (Zin ++ t) (by decide)
        rw [readMSzAux_comma_to34 _ _ (Zin ++ t) _ hskip]
        have hZt : multiSzSegLoop (r1 :: rs) f f f ++ t = 34 :: (Zin ++ t) := by
          rw [hZ, List.cons_append]
        rw [← hZt]
        have hlen : ((List.replicate f 32 ++ (multiSzSegLoop (r1 :: rs) f f f ++ t)).length)
            = f + ((multiSzSegLoop (r1 :: rs) f f f).length + t.length) := by
          simp
        rw [readMSzAux_segLoop _ (r1 :: rs) f f f (wcharsToBytes (s ++ [0])) t (by simp)
          (by rw [hlen]; omega)]
        simp
      · rw [if_neg hw]
        set A := p + (34 :: escMulti s ++ [34, 44]).length with hA
        obtain ⟨Zin, hZ⟩ := segLoop_head r1 rs A (c + A) f
        simp only [List.cons_append, List.append_assoc, List.nil_append]
        unfold readMultiSzData
        rw [readStringValue_esc]
        show readMultiSzDataAux
            ((44 :: (multiSzSegLoop (r1 :: rs) A (c + A) f ++ t)).length + 1)
            (44 :: (multiSzSegLoop (r1 :: rs) A (c + A) f ++ t))
            (wcharsToBytes (s ++ [0])) = _
        simp only [List.length_cons]
        have hskip : skipWrapsAux (multiSzSegLoop (r1 :: rs) A (c + A) f ++ t).length
            (multiSzSegLoop (r1 :: rs) A (c + A) f ++ t) = 34 :: (Zin ++ t) := by
          rw [hZ, List.cons_append]
          exact skipWrapsAux_cons_ne _ 34 (Zin ++ t) (by decide)
        rw [readMSzAux_comma_to34 _ _ (Zin ++ t) _ hskip]
        have hZt : multiSzSegLoop (r1 :: rs) A (c + A) f ++ t = 34 :: (Zin ++ t) := by
          rw [hZ, List.cons_append]
        rw [← hZt]
        rw [readMSzAux_segLoop _ (r1 :: rs) A (c + A) f (wcharsToBytes (s ++ [0])) t (by simp)
          (by simp only [List.length_append]; omega)]
        simp

theorem takeSeg_decomp : ∀ (w : List CodeUnit), w.getLast? = some 0 →
    (takeSeg w).1 ++ 0 :: (takeSeg w).2 = w := by
  intro w
  induction w with
  | nil => intro h; simp at h
  | cons c r ih =>
    intro h
    by_cases hc : c = 0
    · subst hc
      simp [takeSeg]
    · rw [takeSeg_fst_snd c r hc]
      have hr : r.getLast? = some 0 := by
        match r with
        | [] =>
          simp [List.getLast?_singleton] at h
          exact absurd h hc
        | d :: r' => rwa [getLast?_cons_ne c (d :: r') (by simp)] at h
      rw [List.cons_append, ih hr]

theorem splitSegs_join_bounded : ∀ (n : Nat) (w : List CodeUnit), w.length ≤ n → w ≠ [] →
    w.getLast? = some 0 → ((splitSegs w).map (fun s => s ++ [0])).flatten = w := by
  intro n
  induction n with
  | zero =>
    intro w hlen hne
    have hw : w = [] := List.length_eq_zero.mp (by omega)
    rw [hw] at hne
    exact absurd rfl hne
  | succ n ih =>
    intro w hlen hne hlast
    rw [splitSegs_cons w hne]
    simp only [List.map_cons, List.flatten_cons]
    by_cases h2 : (takeSeg w).2 = []
    · rw [h2, splitSegs_nil]
      simp only [List.map_nil, List.flatten_nil, List.append_nil]
      have hd := takeSeg_decomp w hlast
      rw [h2] at hd
      exact hd
    · rw [ih (takeSeg w).2 (by have := takeSeg_len w hne; omega) h2 (takeSeg_last w hlast h2),
          List.append_assoc, List.cons_append, List.nil_append]
      exact takeSeg_decomp w hlast

theorem splitSegs_flatten (w : List CodeUnit) (hne : w ≠ []) (hlast : w.getLast? = some 0) :
    ((splitSegs w).map (fun s => s ++ [0])).flatten = w :=
  splitSegs_join_bounded w.length w le_rfl hne hlast

theorem flatten_map_wchars (segs : List (List CodeUnit)) :
    (segs.map (fun s => wcharsToBytes (s ++ [0]))).flatten =
      wcharsToBytes ((segs.map (fun s => s ++ [0])).flatten) := by
  induction segs with
  | nil => rfl
  | cons s rest ih =>
    simp only [List.map_cons, List.flatten_cons]
    rw [ih]
    simp only [wcharsToBytes_append, List.append_assoc]

theorem multiSz_segs_bytes (w : List CodeUnit) (hne : w ≠ []) (hlast : w.getLast? = some 0) :
    ((splitSegs w).map (fun s => wcharsToBytes (s ++ [0]))).flatten = wcharsToBytes w := by
  rw [flatten_map_wchars, splitSegs_flatten w hne hlast]

theorem readOneValue_hex (name : List CodeUnit) (typ : Nat) (bytes : List Nat) (t : List CodeUnit)
    (hB : bytesOK bytes = true) (hT : typ < 4294967296) :
    readOneValue (renderValueName name ++ (renderBinaryValue (renderValueName name).length typ bytes ++ t))
      = .ok (⟨name, typ, bytes⟩, t) := by
  unfold readOneValue
  simp only [readName_renderName]
  unfold renderBinaryValue hexRenderPrefix
  rw [show strU (r"hex") = [104, 101, 120] from rfl]
  simp only [List.cons_append, List.append_assoc, List.nil_append]
  have ea : ∀ Y : List CodeUnit, expectConsume (strU (r"dword")) (104 :: Y) = none := by
    intro Y
    rw [show strU (r"dword") = 100 :: [119, 111, 114, 100] from rfl]
    exact expectConsume_cons_ne _ _ _ _ (by decide)
  have eb : ∀ Y : List CodeUnit, expectConsume (strU (r"qword")) (104 :: Y) = none := by
    intro Y
    rw [show strU (r"qword") = 113 :: [119, 111, 114, 100] from rfl]
    exact expectConsume_cons_ne _ _ _ _ (by decide)
  have ec : ∀ Y : List CodeUnit, expectConsume [104, 101, 120] (104 :: 101 :: 120 :: Y) = some Y := by
    intro Y
    simp [expectConsume, List.isPrefixOf]
  simp only [ea, eb, ec]
  rw [if_neg (by decide : ¬ (ValueRendering.Hexadecimal = ValueRendering.Str))]
  have hopt := readOptType_hexPrefix typ
    (renderHexBytes bytes
      ((renderValueName name).length +
        (104 :: 101 :: 120 ::
          ((if typ = REG_BINARY then [] else 40 :: (natHex typ ++ [41])) ++ [58])).length) ++
      13 :: 10 :: t) hT
  have hdata := readHexadecimalData_render bytes
    ((renderValueName name).length +
      (104 :: 101 :: 120 ::
        ((if typ = REG_BINARY then [] else 40 :: (natHex typ ++ [41])) ++ [58])).length)
    t hB
  simp only [hopt, hdata]

theorem readOneValue_dword (name : List CodeUnit) (bytes : List Nat) (t : List CodeUnit)
    (hB : bytesOK bytes = true) (hlen : bytes.length = 4) :
    readOneValue (renderValueName name ++
      (strU (r"dword") ++ ([58] ++ (hexPad 8 (leVal bytes) ++ ([13, 10] ++ t)))))
      = .ok (⟨name, REG_DWORD, bytes⟩, t) := by
  unfold readOneValue
  simp only [readName_renderName]
  rw [show strU (r"dword") = [100, 119, 111, 114, 100] from rfl]
  simp only [List.cons_append, List.append_assoc, List.nil_append]
  have ea : ∀ Y : List CodeUnit,
      expectConsume [100, 119, 111, 114, 100] (100 :: 119 :: 111 :: 114 :: 100 :: Y) = some Y := by
    intro Y
    simp [expectConsume, List.isPrefixOf]
  simp only [ea]
  rw [if_neg (by decide : ¬ (ValueRendering.Dword = ValueRendering.Str))]
  have hopt : readOptionalBinaryValueType ValueRendering.Dword
      (58 :: (hexPad 8 (leVal bytes) ++ 13 :: 10 :: t)) =
      .ok (REG_DWORD, 58 :: (hexPad 8 (leVal bytes) ++ 13 :: 10 :: t)) := rfl
  have hV : leVal bytes < 16 ^ (2 * 4) := by
    have hv0 := leVal_lt bytes hB
    rw [hlen] at hv0
    exact hv0
  have hint := readIntegralValue_hexPad 4 (leVal bytes) t (by omega) hV
  norm_num at hint
  have hlb : leBytes 4 (leVal bytes) = bytes := by
    have hb0 := leBytes_leVal bytes hB
    rw [hlen] at hb0
    exact hb0
  simp only [hopt, hint, hlb]

theorem readOneValue_qword (name : List CodeUnit) (bytes : List Nat) (t : List CodeUnit)
    (hB : bytesOK bytes = true) (hlen : bytes.length = 8) :
    readOneValue (renderValueName name ++
      (strU (r"qword") ++ ([58] ++ (hexPad 16 (leVal bytes) ++ ([13, 10] ++ t)))))
      = .ok (⟨name, REG_QWORD, bytes⟩, t) := by
  unfold readOneValue
  simp only [readName_renderName]
  rw [show strU (r"qword") = [113, 119, 111, 114, 100] from rfl]
  simp only [List.cons_append, List.append_assoc, List.nil_append]
  have ea : ∀ Y : List CodeUnit, expectConsume (strU (r"dword")) (113 :: Y) = none := by
    intro Y
    rw [show strU (r"dword") = 100 :: [119, 111, 114, 100] from rfl]
    exact expectConsume_cons_ne _ _ _ _ (by decide)
  have eb : ∀ Y : List CodeUnit,
      expectConsume [113, 119, 111, 114, 100] (113 :: 119 :: 111 :: 114 :: 100 :: Y) = some Y := by
    intro Y
    simp [expectConsume, List.isPrefixOf]
  simp only [ea, eb]
  rw [if_neg (by decide : ¬ (ValueRendering.Qword = ValueRendering.Str))]
  have hopt : readOptionalBinaryValueType ValueRendering.Qword
      (58 :: (hexPad 16 (leVal bytes) ++ 13 :: 10 :: t)) =
      .ok (REG_QWORD, 58 :: (hexPad 16 (leVal bytes) ++ 13 :: 10 :: t)) := rfl
  have hV : leVal bytes < 16 ^ (2 * 8) := by
    have hv0 := leVal_lt bytes hB
    rw [hlen] at hv0
    exact hv0
  have hint := readIntegralValue_hexPad 8 (leVal bytes) t (by omega) hV
  norm_num at hint
  have hlb : leBytes 8 (leVal bytes) = bytes := by
    have hb0 := leBytes_leVal bytes hB
    rw [hlen] at hb0
    exact hb0
  simp only [hopt, hint, hlb]

theorem readOneValue_str (name w : List CodeUnit) (t : List CodeUnit) :
    readOneValue (renderValueName name ++ ((34 :: escName w) ++ ([34, 13, 10] ++ t)))
      = .ok (⟨name, REG_SZ, wcharsToBytes (w ++ [0])⟩, t) := by
  unfold readOneValue
  simp only [readName_renderName]
  simp only [List.cons_append, List.append_assoc, List.nil_append]
  have ea : ∀ Y : List CodeUnit, expectConsume (strU (r"dword")) (34 :: Y) = none := by
    intro Y
    rw [show strU (r"dword") = 100 :: [119, 111, 114, 100] from rfl]
    exact expectConsume_cons_ne _ _ _ _ (by decide)
  have eb : ∀ Y : List CodeUnit, expectConsume (strU (r"qword")) (34 :: Y) = none := by
    intro Y
    rw [show strU (r"qword") = 113 :: [119, 111, 114, 100] from rfl]
    exact expectConsume_cons_ne _ _ _ _ (by decide)
  have ec : ∀ Y : List CodeUnit, expectConsume (strU (r"hex")) (34 :: Y) = none := by
    intro Y
    rw [show strU (r"hex") = 104 :: [101, 120] from rfl]
    exact expectConsume_cons_ne _ _ _ _ (by decide)
  have ed : ∀ Y : List CodeUnit, expectConsume (strU (r"multi_sz")) (34 :: Y) = none := by
    intro Y
    rw [show strU (r"multi_sz") = 109 :: [117, 108, 116, 105, 95, 115, 122] from rfl]
    exact expectConsume_cons_ne _ _ _ _ (by decide)
  have ee : ∀ Y : List CodeUnit, expectConsume (strU (r"expand_sz")) (34 :: Y) = none := by
    intro Y
    rw [show strU (r"expand_sz") = 101 :: [120, 112, 97, 110, 100, 95, 115, 122] from rfl]
    exact expectConsume_cons_ne _ _ _ _ (by decide)
  simp only [ea, eb, ec, ed, ee, if_true]
  rw [escName_eq_escMulti]
  simp only [readStringValue_esc]
  have ef : expectConsume [13, 10] (13 :: 10 :: t) = some t := by
    simp [expectConsume, List.isPrefixOf]
  simp only [ef]

theorem readOneValue_msz (name w : List CodeUnit) (p c f : Nat) (t : List CodeUnit)
    (hne : w ≠ []) (hlast : w.getLast? = some 0) :
    readOneValue (renderValueName name ++
      (strU (r"multi_sz") ++ ([58] ++ (multiSzSegLoop (splitSegs w) p c f ++ t))))
      = .ok (⟨name, REG_MULTI_SZ, wcharsToBytes w⟩, t) := by
  unfold readOneValue
  simp only [readName_renderName]
  rw [show strU (r"multi_sz") = [109, 117, 108, 116, 105, 95, 115, 122] from rfl]
  simp only [List.cons_append, List.append_assoc, List.nil_append]
  have ea : ∀ Y : List CodeUnit, expectConsume (strU (r"dword")) (109 :: Y) = none := by
    intro Y
    rw [show strU (r"dword") = 100 :: [119, 111, 114, 100] from rfl]
    exact expectConsume_cons_ne _ _ _ _ (by decide)
  have eb : ∀ Y : List CodeUnit, expectConsume (strU (r"qword")) (109 :: Y) = none := by
    intro Y
    rw [show strU (r"qword") = 113 :: [119, 111, 114, 100] from rfl]
    exact expectConsume_cons_ne _ _ _ _ (by decide)
  have ec : ∀ Y : List CodeUnit, expectConsume (strU (r"hex")) (109 :: Y) = none := by
    intro Y
    rw [show strU (r"hex") = 104 :: [101, 120] from rfl]
    exact expectConsume_cons_ne _ _ _ _ (by decide)
  have ed : ∀ Y : List CodeUnit,
      expectConsume [109, 117, 108, 116, 105, 95, 115, 122]
        (109 :: 117 :: 108 :: 116 :: 105 :: 95 :: 115 :: 122 :: Y) = some Y := by
    intro Y
    simp [expectConsume, List.isPrefixOf]
  simp only [ea, eb, ec, ed]
  rw [if_neg (by decide : ¬ (ValueRendering.MultiSz = ValueRendering.Str))]
  have hopt : readOptionalBinaryValueType ValueRendering.MultiSz
      (58 :: (multiSzSegLoop (splitSegs w) p c f ++ t)) =
      .ok (REG_MULTI_SZ, 58 :: (multiSzSegLoop (splitSegs w) p c f ++ t)) := rfl
  have hsegs : splitSegs w ≠ [] := by
    rw [splitSegs_cons w hne]
    simp
  have hdata := readMultiSzData_segLoop (splitSegs w) p c f t hsegs
  rw [multiSz_segs_bytes w hne hlast] at hdata
  simp only [hopt, hdata]

theorem readOneValue_esz (name w : List CodeUnit) (p c f : Nat) (t : List CodeUnit)
    (hne : w ≠ []) (hlast : w.getLast? = some 0) :
    readOneValue (renderValueName name ++
      (strU (r"expand_sz") ++ ([58] ++ (multiSzSegLoop (splitSegs w) p c f ++ t))))
      = .ok (⟨name, REG_EXPAND_SZ, wcharsToBytes w⟩, t) := by
  unfold readOneValue
  simp only [readName_renderName]
  rw [show strU (r"expand_sz") = [101, 120, 112, 97, 110, 100, 95, 115, 122] from rfl]
  simp only [List.cons_append, List.append_assoc, List.nil_append]
  have ea : ∀ Y : List CodeUnit, expectConsume (strU (r"dword")) (101 :: Y) = none := by
    intro Y
    rw [show strU (r"dword") = 100 :: [119, 111, 114, 100] from rfl]
    exact expectConsume_cons_ne _ _ _ _ (by decide)
  have eb : ∀ Y : List CodeUnit, expectConsume (strU (r"qword")) (101 :: Y) = none := by
    intro Y
    rw [show strU (r"qword") = 113 :: [119, 111, 114, 100] from rfl]
    exact expectConsume_cons_ne _ _ _ _ (by decide)
  have ec : ∀ Y : List CodeUnit, expectConsume (strU (r"hex")) (101 :: Y) = none := by
    intro Y
    rw [show strU (r"hex") = 104 :: [101, 120] from rfl]
    exact expectConsume_cons_ne _ _ _ _ (by decide)
  have ed : ∀ Y : List CodeUnit, expectConsume (strU (r"multi_sz")) (101 :: Y) = none := by
    intro Y
    rw [show strU (r"multi_sz") = 109 :: [117, 108, 116, 105, 95, 115, 122] from rfl]
    exact expectConsume_cons_ne _ _ _ _ (by decide)
  have ee : ∀ Y : List CodeUnit,
      expectConsume [101, 120, 112, 97, 110, 100, 95, 115, 122]
        (101 :: 120 :: 112 :: 97 :: 110 :: 100 :: 95 :: 115 :: 122 :: Y) = some Y := by
    intro Y
    simp [expectConsume, List.isPrefixOf]
  simp only [ea, eb, ec, ed, ee]
  rw [if_neg (by decide : ¬ (ValueRendering.ExpandSz = ValueRendering.Str))]
  have hopt : readOptionalBinaryValueType ValueRendering.ExpandSz
      (58 :: (multiSzSegLoop (splitSegs w) p c f ++ t)) =
      .ok (REG_EXPAND_SZ, 58 :: (multiSzSegLoop (splitSegs w) p c f ++ t)) := rfl
  have hsegs : splitSegs w ≠ [] := by
    rw [splitSegs_cons w hne]
    simp
  have hdata := readMultiSzData_segLoop (splitSegs w) p c f t hsegs
  rw [multiSz_segs_bytes w hne hlast] at hdata
  simp only [hopt, hdata]

theorem readOneValue_render (ext : Bool) (v : RegistryValue) (t : List CodeUnit)
    (hB : bytesOK v.BinaryValue = true) (hT : v.Typ < 4294967296) :
    readOneValue (renderRegistryValue ext v ++ t) = .ok (v, t) := by
  unfold renderRegistryValue
  simp only []
  by_cases h4 : v.Typ = REG_DWORD
  · rw [if_pos h4]
    unfold renderDwordValue
    by_cases hl : v.BinaryValue.length = 4
    · rw [if_pos hl]
      simp only [List.append_assoc]
      rw [readOneValue_dword v.Name v.BinaryValue t hB hl, ← h4]
    · rw [if_neg hl]
      simp only [List.append_assoc]
      rw [readOneValue_hex v.Name v.Typ v.BinaryValue t hB hT]
  · rw [if_neg h4]
    by_cases h1 : v.Typ = REG_SZ
    · rw [if_pos h1]
      unfold renderStringValue
      by_cases he : v.BinaryValue.length % 2 ≠ 0
      · rw [if_pos he]
        simp only [List.append_assoc]
        rw [readOneValue_hex v.Name v.Typ v.BinaryValue t hB hT]
      · rw [if_neg he]
        simp only []
        by_cases hw : bytesToWchars v.BinaryValue = []
        · rw [if_pos hw]
          simp only [List.append_assoc]
          rw [readOneValue_hex v.Name v.Typ v.BinaryValue t hB hT]
        · rw [if_neg hw]
          by_cases hbad : (bytesToWchars v.BinaryValue).getLast? ≠ some 0 ∨
              ((bytesToWchars v.BinaryValue).dropLast.contains 0 = true)
          · rw [if_pos hbad]
            simp only [List.append_assoc]
            rw [readOneValue_hex v.Name v.Typ v.BinaryValue t hB hT]
          · rw [if_neg hbad]
            have hlast : (bytesToWchars v.BinaryValue).getLast? = some 0 := by
              push_neg at hbad
              exact hbad.1
            have heven : v.BinaryValue.length % 2 = 0 := by omega
            simp only [List.append_assoc]
            rw [readOneValue_str v.Name (bytesToWchars v.BinaryValue).dropLast t,
                dropLast_append_zero _ hw hlast,
                wcharsToBytes_bytesToWchars v.BinaryValue hB heven, ← h1]
    · rw [if_neg h1]
      by_cases h11 : v.Typ = REG_QWORD ∧ ext = true
      · rw [if_pos h11]
        unfold renderQwordValue
        by_cases hl : v.BinaryValue.length = 8
        · rw [if_pos hl]
          simp only [List.append_assoc]
          rw [readOneValue_qword v.Name v.BinaryValue t hB hl, ← h11.1]
        · rw [if_neg hl]
          simp only [List.append_assoc]
          rw [readOneValue_hex v.Name v.Typ v.BinaryValue t hB hT]
      · rw [if_neg h11]
        by_cases h7 : v.Typ = REG_MULTI_SZ ∧ ext = true
        · rw [if_pos h7]
          unfold renderMultiSzValue
          by_cases he : v.BinaryValue.length % 2 ≠ 0
          · rw [if_pos he]
            simp only [List.append_assoc]
            rw [readOneValue_hex v.Name v.Typ v.BinaryValue t hB hT]
          · rw [if_neg he]
            simp only []
            by_cases hw : bytesToWchars v.BinaryValue = []
            · rw [if_pos hw]
              simp only [List.append_assoc]
              rw [readOneValue_hex v.Name v.Typ v.BinaryValue t hB hT]
            · rw [if_neg hw]
              by_cases hl0 : (bytesToWchars v.BinaryValue).getLast? ≠ some 0
              · rw [if_pos hl0]
                simp only [List.append_assoc]
                rw [readOneValue_hex v.Name v.Typ v.BinaryValue t hB hT]
              · rw [if_neg hl0]
                have hlast : (bytesToWchars v.BinaryValue).getLast? = some 0 := not_not.mp hl0
                have heven : v.BinaryValue.length % 2 = 0 := by omega
                rw [multiSzLoopAux_eq_seg ((bytesToWchars v.BinaryValue).length + 1)
                  (bytesToWchars v.BinaryValue) (strU (r"multi_sz") ++ [58])
                  (renderValueName v.Name).length (renderValueName v.Name).length []
                  hw hlast (by omega)]
                simp only [List.append_assoc, List.nil_append]
                have hm := readOneValue_msz v.Name (bytesToWchars v.BinaryValue)
                  (strU (r"multi_sz") ++ [58]).length (renderValueName v.Name).length
                  (renderValueName v.Name).length t hw hlast
                rw [hm, wcharsToBytes_bytesToWchars v.BinaryValue hB heven, ← h7.1]
        · rw [if_neg h7]
          by_cases h2 : v.Typ = REG_EXPAND_SZ ∧ ext = true
          · rw [if_pos h2]
            unfold renderMultiSzValue
            by_cases he : v.BinaryValue.length % 2 ≠ 0
            · rw [if_pos he]
              simp only [List.append_assoc]
              rw [readOneValue_hex v.Name v.Typ v.BinaryValue t hB hT]
            · rw [if_neg he]
              simp only []
              by_cases hw : bytesToWchars v.BinaryValue = []
              · rw [if_pos hw]
                simp only [List.append_assoc]
                rw [readOneValue_hex v.Name v.Typ v.BinaryValue t hB hT]
              · rw [if_neg hw]
                by_cases hl0 : (bytesToWchars v.BinaryValue).getLast? ≠ some 0
                · rw [if_pos hl0]
                  simp only [List.append_assoc]
                  rw [readOneValue_hex v.Name v.Typ v.BinaryValue t hB hT]
                · rw [if_neg hl0]
                  have hlast : (bytesToWchars v.BinaryValue).getLast? = some 0 := not_not.mp hl0
                  have heven : v.BinaryValue.length % 2 = 0 := by omega
                  rw [multiSzLoopAux_eq_seg ((bytesToWchars v.BinaryValue).length + 1)
                    (bytesToWchars v.BinaryValue) (strU (r"expand_sz") ++ [58])
                    (renderValueName v.Name).length (renderValueName v.Name).length []
                    hw hlast (by omega)]
                  simp only [List.append_assoc, List.nil_append]
                  have hm := readOneValue_esz v.Name (bytesToWchars v.BinaryValue)
                    (strU (r"expand_sz") ++ [58]).length (renderValueName v.Name).length
                    (renderValueName v.Name).length t hw hlast
                  rw [hm, wcharsToBytes_bytesToWchars v.BinaryValue hB heven, ← h2.1]
          · rw [if_neg h2]
            simp only [List.append_assoc]
            rw [readOneValue_hex v.Name v.Typ v.BinaryValue t hB hT]

theorem renderValue_head (ext : Bool) (v : RegistryValue) :
    ∃ (h0 : CodeUnit) (Z : List CodeUnit),
      renderRegistryValue ext v = h0 :: Z ∧ (h0 = 64 ∨ h0 = 34) := by
  have hsplit : ∃ B, renderRegistryValue ext v = renderValueName v.Name ++ B := by
    unfold renderRegistryValue
    exact ⟨_, rfl⟩
  obtain ⟨B, hB⟩ := hsplit
  unfold renderValueName at hB
  by_cases h : v.Name = []
  · rw [if_pos h] at hB
    exact ⟨64, 61 :: B, by rw [hB]; rfl, Or.inl rfl⟩
  · rw [if_neg h] at hB
    exact ⟨34, escName v.Name ++ ([34, 61] ++ B), by rw [hB]; simp, Or.inr rfl⟩

theorem valueListAux_step (f : Nat) (h0 : CodeUnit) (Z : List CodeUnit) (hh : h0 = 64 ∨ h0 = 34) :
    valueListAux (f + 1) (h0 :: Z) =
      match readOneValue (h0 :: Z) with
      | .error e => .error e
      | .ok (v, rest) =>
        match valueListAux f rest with
        | .error e => .error e
        | .ok (vs, rest2) => .ok (v :: vs, rest2) := by
  rw [valueListAux.eq_def]
  split
  · omega
  · split <;> simp_all

theorem valueListAux_step_render (ext : Bool) (f : Nat) (v v' : RegistryValue)
    (X rest : List CodeUnit)
    (hparse : readOneValue (renderRegistryValue ext v ++ X) = .ok (v', rest)) :
    valueListAux (f + 1) (renderRegistryValue ext v ++ X) =
      match valueListAux f rest with
      | .error e => .error e
      | .ok (vs, rest2) => .ok (v' :: vs, rest2) := by
  obtain ⟨h0, Z, hZ, hh⟩ := renderValue_head ext v
  rw [hZ, List.cons_append] at hparse ⊢
  rw [valueListAux_step f h0 (Z ++ X) hh, hparse]

theorem valueListAux_render (ext : Bool) : ∀ (vals : List RegistryValue) (fuel : Nat)
    (T : List CodeUnit),
    vals.all (fun v => bytesOK v.BinaryValue && decide (v.Typ < 4294967296)) = true →
    vals.length < fuel →
    valueListAux fuel ((vals.map (renderRegistryValue ext)).flatten ++ 13 :: 10 :: T)
      = .ok (vals, dropCRLFpairs T) := by
  intro vals
  induction vals with
  | nil =>
    intro fuel T _ hf
    obtain ⟨f, rfl⟩ : ∃ f, fuel = f + 1 := ⟨fuel - 1, by omega⟩
    simp only [List.map_nil, List.flatten_nil, List.nil_append]
    simp only [valueListAux]
  | cons v vs ih =>
    intro fuel T hall hf
    simp only [List.all_cons, Bool.and_eq_true, decide_eq_true_eq] at hall
    obtain ⟨f, rfl⟩ : ∃ f, fuel = f + 1 := ⟨fuel - 1, by omega⟩
    simp only [List.map_cons, List.flatten_cons, List.append_assoc]
    have h1 := readOneValue_render ext v
      ((vs.map (renderRegistryValue ext)).flatten ++ 13 :: 10 :: T) hall.1.1 hall.1.2
    rw [valueListAux_step_render ext f v v _ _ h1]
    rw [ih f T (by simp only [List.all_eq_true] at hall ⊢; exact hall.2) (by simp only [List.length_cons] at hf; omega)]

theorem noKCN_cons_ne (a : CodeUnit) (l : List CodeUnit) (h : a ≠ 93) :
    noKCN (a :: l) = noKCN l := by
  rw [noKCN.eq_def]
  split <;> simp_all

theorem noKCN_93_cons (l : List CodeUnit) (h : l.head? ≠ some 10) :
    noKCN (93 :: l) = noKCN l := by
  rw [noKCN.eq_def]
  split <;> simp_all

theorem noKCN_head_pair (l : List CodeUnit) : noKCN (93 :: 10 :: l) = false := rfl

theorem noKCN_append_sep : ∀ (p n : List CodeUnit), noKCN p = true → noKCN n = true →
    noKCN (p ++ 92 :: n) = true
  | [], n, _, hn => by
    rw [List.nil_append, noKCN_cons_ne 92 n (by decide)]
    exact hn
  | [c], n, hp, hn => by
    rw [List.cons_append, List.nil_append]
    by_cases hc : c = 93
    · subst hc
      rw [noKCN_93_cons (92 :: n) (by simp), noKCN_cons_ne 92 n (by decide)]
      exact hn
    · rw [noKCN_cons_ne c _ hc, noKCN_cons_ne 92 n (by decide)]
      exact hn
  | c1 :: c2 :: p', n, hp, hn => by
    have hp' : noKCN (c2 :: p') = true := by
      by_cases hc : c1 = 93
      · subst hc
        by_cases h2 : c2 = 10
        · subst h2
          rw [noKCN_head_pair] at hp
          exact absurd hp (by simp)
        · rwa [noKCN_93_cons (c2 :: p') (by simp [h2])] at hp
      · rwa [noKCN_cons_ne c1 _ hc] at hp
    have hres := noKCN_append_sep (c2 :: p') n hp' hn
    rw [List.cons_append] at hres
    rw [List.cons_append, List.cons_append]
    by_cases hc : c1 = 93
    · subst hc
      have h2 : c2 ≠ 10 := by
        intro h2
        subst h2
        rw [noKCN_head_pair] at hp
        exact absurd hp (by simp)
      rw [noKCN_93_cons (c2 :: (p' ++ 92 :: n)) (by simp [h2])]
      exact hres
    · rw [noKCN_cons_ne c1 _ hc]
      exact hres

theorem no93CRLF_cons_ne (a : CodeUnit) (l : List CodeUnit) (h : a ≠ 93) :
    no93CRLF (a :: l) = no93CRLF l := by
  rw [no93CRLF.eq_def]
  split <;> simp_all

theorem no93CRLF_93 (l : List CodeUnit) (h : l.head? ≠ some 13) :
    no93CRLF (93 :: l) = no93CRLF l := by
  rw [no93CRLF.eq_def]
  split <;> simp_all

theorem no93CRLF_93_13 (l : List CodeUnit) (h : l.head? ≠ some 10) :
    no93CRLF (93 :: 13 :: l) = no93CRLF (13 :: l) := by
  rw [no93CRLF.eq_def]
  split <;> simp_all

theorem no93CRLF_escLF : ∀ (p : List CodeUnit), noKCN p = true → no93CRLF (escLF p) = true
  | [], _ => rfl
  | [c], _ => by
    by_cases hc10 : c = 10
    · subst hc10
      rfl
    · rw [escLF_cons_ne c [] hc10, show escLF [] = [] from rfl]
      by_cases hc93 : c = 93
      · subst hc93
        rw [no93CRLF_93 [] (by simp)]
        rfl
      · rw [no93CRLF_cons_ne c [] hc93]
        rfl
  | c :: r0 :: r', hp => by
    by_cases hc10 : c = 10
    · subst hc10
      show no93CRLF (13 :: 10 :: escLF (r0 :: r')) = true
      rw [no93CRLF_cons_ne 13 _ (by decide), no93CRLF_cons_ne 10 _ (by decide)]
      exact no93CRLF_escLF (r0 :: r') (by rwa [noKCN_cons_ne 10 _ (by decide)] at hp)
    · rw [escLF_cons_ne c _ hc10]
      by_cases hc93 : c = 93
      · subst hc93
        have h10 : r0 ≠ 10 := by
          intro h0
          subst h0
          rw [noKCN_head_pair] at hp
          exact absurd hp (by simp)
        have hr : noKCN (r0 :: r') = true := by
          rwa [noKCN_93_cons (r0 :: r') (by simp [h10])] at hp
        by_cases h13 : r0 = 13
        · rw [escLF_cons_ne r0 r' (by simp [h13]), h13,
              no93CRLF_93_13 (escLF r') (escLF_head_ne_10 r'), ← h13,
              ← escLF_cons_ne r0 r' (by simp [h13])]
          exact no93CRLF_escLF (r0 :: r') hr
        · have hhead : (escLF (r0 :: r')).head? ≠ some 13 := by
            rw [escLF_cons_ne r0 r' h10]
            simp [h13]
          rw [no93CRLF_93 (escLF (r0 :: r')) hhead]
          exact no93CRLF_escLF (r0 :: r') hr
      · rw [no93CRLF_cons_ne c _ hc93]
        exact no93CRLF_escLF (c :: r0 :: r').tail
          (by rwa [noKCN_cons_ne c _ hc93] at hp)


theorem no93CRLF_tail (c : CodeUnit) (l : List CodeUnit) (h : no93CRLF (c :: l) = true) :
    no93CRLF l = true := by
  rw [no93CRLF.eq_def] at h
  split at h <;> simp_all

theorem findSub_93crlf : ∀ (a r : List CodeUnit), no93CRLF a = true →
    findSub [93, 13, 10] (a ++ 93 :: 13 :: 10 :: r) = some a.length
  | [], r, _ => by
    rw [List.nil_append]
    unfold findSub
    rw [if_pos (by simp [List.isPrefixOf])]
    rfl
  | c :: a', r, h => by
    rw [List.cons_append]
    have hno : ¬ (([93, 13, 10] : List CodeUnit).isPrefixOf
        (c :: (a' ++ 93 :: 13 :: 10 :: r)) = true) := by
      intro hp
      by_cases hc : c = 93
      · subst hc
        match a', h, hp with
        | [], _, hp => simp [List.isPrefixOf] at hp
        | [c2], h, hp =>
          simp only [List.cons_append, List.nil_append, List.isPrefixOf, Bool.and_eq_true,
            beq_iff_eq] at hp
          obtain ⟨-, -, h3, -⟩ := hp
          exact absurd h3 (by decide)
        | c2 :: c3 :: a'', h, hp =>
          simp only [List.cons_append, List.isPrefixOf, Bool.and_eq_true, beq_iff_eq] at hp
          obtain ⟨-, h2, h3, -⟩ := hp
          subst h2
          subst h3
          have hf : no93CRLF (93 :: 13 :: 10 :: a'') = false := rfl
          rw [hf] at h
          exact absurd h (by simp)
      · simp only [List.isPrefixOf, Bool.and_eq_true, beq_iff_eq] at hp
        exact hc hp.1.symm
    unfold findSub
    rw [if_neg hno, findSub_93crlf a' r (no93CRLF_tail c a' h)]
    rfl

theorem stop_mono (P P' kp : List CodeUnit) (hpre : P.isPrefixOf P' = true)
    (h : kp.length ≤ P.length ∨ ¬ (P.isPrefixOf kp = true)) :
    kp.length ≤ P'.length ∨ ¬ (P'.isPrefixOf kp = true) := by
  rw [List.isPrefixOf_iff_prefix] at hpre
  rcases h with h | h
  · exact Or.inl (le_trans h hpre.length_le)
  · right
    intro h'
    rw [List.isPrefixOf_iff_prefix] at h'
    exact h (by rw [List.isPrefixOf_iff_prefix]; exact hpre.trans h')

theorem prefix_append92_contains (A B : List CodeUnit)
    (h : (A ++ [92]).isPrefixOf B = true) : B.contains 92 = true := by
  rw [List.isPrefixOf_iff_prefix] at h
  obtain ⟨s, hs⟩ := h
  rw [← hs]
  simp

theorem escLF_contains92 : ∀ (l : List CodeUnit), l.contains 92 = false →
    (escLF l).contains 92 = false
  | [], _ => rfl
  | c :: rest, h => by
    have hparts : c ≠ 92 ∧ rest.contains 92 = false := by
      simp only [List.contains_cons] at h
      constructor
      · intro hc
        subst hc
        simp at h
      · exact (Bool.or_eq_false_iff.mp h).2
    by_cases hc10 : c = 10
    · subst hc10
      show ((13 : CodeUnit) :: 10 :: escLF rest).contains 92 = false
      simp only [List.contains_cons, Bool.or_eq_false_iff, beq_eq_false_iff_ne]
      exact ⟨by decide, by decide, escLF_contains92 rest hparts.2⟩
    · rw [escLF_cons_ne c rest hc10]
      simp only [List.contains_cons, Bool.or_eq_false_iff, beq_eq_false_iff_ne]
      exact ⟨fun hh => hparts.1 hh.symm, escLF_contains92 rest hparts.2⟩

theorem buggyCRStrip_91 (x : List CodeUnit) : buggyCRStrip (91 :: x) = 91 :: x := by
  rw [buggyCRStrip.eq_def]

theorem dropCRLFpairs_cons_ne (c : CodeUnit) (x : List CodeUnit) (h : c ≠ 13) :
    dropCRLFpairs (c :: x) = c :: x := by
  rw [dropCRLFpairs.eq_def]
  split <;> simp_all

theorem drop_after_header (a R : List CodeUnit) :
    (a ++ 93 :: 13 :: 10 :: R).drop (a.length + 3) = R := by
  rw [show a ++ 93 :: 13 :: 10 :: R = (a ++ [93, 13, 10]) ++ R by simp]
  exact List.drop_left' (by simp)

theorem take_header (a R : List CodeUnit) :
    (a ++ 93 :: 13 :: 10 :: R).take a.length = a := List.take_left a _

theorem not_prefix_append92 (A B : List CodeUnit) (hB : B.contains 92 = false) :
    ¬ ((A ++ [92]).isPrefixOf B = true) := by
  intro h
  have h1 := prefix_append92_contains A B h
  rw [h1] at hB
  exact Bool.noConfusion hB

theorem not_prefix_common (C A B : List CodeUnit) (hB : B.contains 92 = false) :
    ¬ (((C ++ (A ++ [92])).isPrefixOf (C ++ B)) = true) := by
  intro h
  rw [List.isPrefixOf_iff_prefix, List.prefix_append_right_inj] at h
  exact not_prefix_append92 A B hB (by rw [List.isPrefixOf_iff_prefix]; exact h)

theorem sibling_stop (pathSoFar name1 name2 : List CodeUnit)
    (h92 : name2.contains 92 = false) :
    ¬ ((escLF (if pathSoFar = [] then name1 else pathSoFar ++ 92 :: name1) ++ [92]).isPrefixOf
        (escLF (if pathSoFar = [] then name2 else pathSoFar ++ 92 :: name2)) = true) := by
  by_cases hps : pathSoFar = []
  · rw [if_pos hps, if_pos hps]
    exact not_prefix_append92 _ _ (escLF_contains92 name2 h92)
  · rw [if_neg hps, if_neg hps, escLF_append, escLF_append,
        escLF_cons_ne 92 name1 (by decide), escLF_cons_ne 92 name2 (by decide)]
    rw [show (escLF pathSoFar ++ 92 :: escLF name1) ++ [92]
        = (escLF pathSoFar ++ [92]) ++ (escLF name1 ++ [92]) by simp,
      show escLF pathSoFar ++ 92 :: escLF name2
        = (escLF pathSoFar ++ [92]) ++ escLF name2 by simp]
    exact not_prefix_common _ _ _ (escLF_contains92 name2 h92)

theorem pathPrefix_le_child (pathSoFar name : List CodeUnit) :
    (pathPrefix pathSoFar).isPrefixOf
      (escLF (if pathSoFar = [] then name else pathSoFar ++ 92 :: name) ++ [92]) = true := by
  by_cases hps : pathSoFar = []
  · rw [if_pos hps, show pathPrefix pathSoFar = [] from by rw [hps]; rfl,
        List.isPrefixOf_iff_prefix]
    exact List.nil_prefix
  · rw [if_neg hps, escLF_append, escLF_cons_ne 92 name (by decide),
        show pathPrefix pathSoFar = escLF pathSoFar ++ [92] from by
          unfold pathPrefix; rw [if_neg hps],
        List.isPrefixOf_iff_prefix,
        show (escLF pathSoFar ++ 92 :: escLF name) ++ [92]
          = (escLF pathSoFar ++ [92]) ++ (escLF name ++ [92]) by simp]
    exact List.prefix_append _ _

theorem header_continue (pathSoFar name : List CodeUnit) (hname : name ≠ []) :
    (pathPrefix pathSoFar).length
        < (escLF (if pathSoFar = [] then name else pathSoFar ++ 92 :: name)).length
      ∧ (pathPrefix pathSoFar).isPrefixOf
          (escLF (if pathSoFar = [] then name else pathSoFar ++ 92 :: name)) = true := by
  have hlen : escLF name ≠ [] := by
    intro h
    exact hname ((escLF_eq_nil name).mp h)
  by_cases hps : pathSoFar = []
  · rw [if_pos hps, show pathPrefix pathSoFar = [] from by rw [hps]; rfl]
    constructor
    · simp only [List.length_nil]
      match he : escLF name, hlen with
      | c :: cs, _ => simp
    · rw [List.isPrefixOf_iff_prefix]
      exact List.nil_prefix
  · rw [if_neg hps, escLF_append, escLF_cons_ne 92 name (by decide),
        show pathPrefix pathSoFar = escLF pathSoFar ++ [92] from by
          unfold pathPrefix; rw [if_neg hps]]
    constructor
    · simp only [List.length_append, List.length_cons, List.length_nil]
      have : 1 ≤ (escLF name).length := by
        match he : escLF name, hlen with
        | c :: cs, _ => simp
      omega
    · rw [List.isPrefixOf_iff_prefix,
        show escLF pathSoFar ++ 92 :: escLF name
          = (escLF pathSoFar ++ [92]) ++ escLF name by simp]
      exact List.prefix_append _ _

theorem name_recover (pathSoFar name : List CodeUnit) :
    unescCRLF ((escLF (if pathSoFar = [] then name else pathSoFar ++ 92 :: name)).drop
      (pathPrefix pathSoFar).length) = name := by
  by_cases hps : pathSoFar = []
  · rw [if_pos hps, show pathPrefix pathSoFar = [] from by rw [hps]; rfl]
    simp [unescCRLF_escLF]
  · rw [if_neg hps, escLF_append, escLF_cons_ne 92 name (by decide),
        show pathPrefix pathSoFar = escLF pathSoFar ++ [92] from by
          unfold pathPrefix; rw [if_neg hps],
        show escLF pathSoFar ++ 92 :: escLF name
          = (escLF pathSoFar ++ [92]) ++ escLF name by simp,
        List.drop_left]
    exact unescCRLF_escLF name

theorem noKCN_child (pathSoFar name : List CodeUnit) (hp : noKCN pathSoFar = true)
    (hn : noKCN name = true) :
    noKCN (if pathSoFar = [] then name else pathSoFar ++ 92 :: name) = true := by
  by_cases hps : pathSoFar = []
  · rw [if_pos hps]
    exact hn
  · rw [if_neg hps]
    exact noKCN_append_sep pathSoFar name hp hn

theorem child_ne_nil (pathSoFar name : List CodeUnit) (hname : name ≠ []) :
    (if pathSoFar = [] then name else pathSoFar ++ 92 :: name) ≠ [] := by
  by_cases hps : pathSoFar = []
  · rw [if_pos hps]
    exact hname
  · rw [if_neg hps]
    simp

theorem pathPrefix_child (p : List CodeUnit) (hp : p ≠ []) :
    pathPrefix p = escLF p ++ [92] := by
  unfold pathPrefix
  rw [if_neg hp]

theorem renderValues_length (ext : Bool) : ∀ (vals : List RegistryValue),
    vals.length ≤ ((vals.map (renderRegistryValue ext)).flatten).length
  | [] => Nat.le_refl 0
  | v :: vs => by
    simp only [List.map_cons, List.flatten_cons, List.length_append, List.length_cons]
    obtain ⟨h0, Z, hZ, -⟩ := renderValue_head ext v
    rw [hZ]
    have hrec := renderValues_length ext vs
    simp only [List.length_cons]
    omega

theorem regListLoopAux_stop (f : Nat) (P Y : List CodeUnit) (n : Nat)
    (hfind : findSub [93, 13, 10] Y = some n)
    (hstop : (Y.take n).length ≤ P.length ∨ ¬ ((P.isPrefixOf (Y.take n)) = true)) :
    regListLoopAux (f + 1) P (91 :: Y) = .ok ([], 91 :: Y) := by
  simp only [regListLoopAux, hfind]
  rw [if_pos hstop]

theorem regListLoopAux_stop2 (f : Nat) (hf : 1 ≤ f) (P Y : List CodeUnit) (n : Nat)
    (hfind : findSub [93, 13, 10] Y = some n)
    (hstop : (Y.take n).length ≤ P.length ∨ ¬ ((P.isPrefixOf (Y.take n)) = true)) :
    regListLoopAux f P (91 :: Y) = .ok ([], 91 :: Y) := by
  obtain ⟨f2, rfl⟩ : ∃ f2, f = f2 + 1 := ⟨f - 1, by omega⟩
  exact regListLoopAux_stop f2 P Y n hfind hstop

theorem renderKeysList_head (ext : Bool) (pathSoFar : List CodeUnit) (ks : List RegistryKey)
    (hne : ks ≠ []) : ∃ Y, renderRegistryKeysList ext pathSoFar ks = 91 :: Y := by
  match ks, hne with
  | .mk name sub vals :: rest, _ =>
    simp only [renderRegistryKeysList, renderRegistryKeyToRegFormat, List.cons_append,
      List.append_assoc, List.nil_append]
    exact ⟨_, rfl⟩

theorem renderKey_shape (ext : Bool) (pathSoFar name2 : List CodeUnit) (sub2 : List RegistryKey)
    (vals2 : List RegistryValue) (T : List CodeUnit)
    (hkcn : noKCN pathSoFar = true) (hkcn2 : noKCN name2 = true) :
    ∃ Y, renderRegistryKeyToRegFormat ext pathSoFar (.mk name2 sub2 vals2) ++ T = 91 :: Y ∧
      findSub [93, 13, 10] Y
        = some (escLF (if pathSoFar = [] then name2 else pathSoFar ++ 92 :: name2)).length ∧
      Y.take (escLF (if pathSoFar = [] then name2 else pathSoFar ++ 92 :: name2)).length
        = escLF (if pathSoFar = [] then name2 else pathSoFar ++ 92 :: name2) := by
  simp only [renderRegistryKeyToRegFormat]
  refine ⟨escLF (if pathSoFar = [] then name2 else pathSoFar ++ 92 :: name2) ++
    93 :: 13 :: 10 :: (((vals2.map (renderRegistryValue ext)).flatten ++
      ([13, 10] ++ renderRegistryKeysList ext
        (if pathSoFar = [] then name2 else pathSoFar ++ 92 :: name2) sub2)) ++ T),
    by simp [List.cons_append, List.append_assoc], ?_, ?_⟩
  · exact findSub_93crlf _ _ (no93CRLF_escLF _ (noKCN_child pathSoFar name2 hkcn hkcn2))
  · exact take_header _ _

theorem regListLoopAux_render (ext : Bool) : ∀ (fuel : Nat) (pathSoFar : List CodeUnit)
    (ks : List RegistryKey) (t : List CodeUnit),
    ks ≠ [] →
    rtKeysOK ks = true →
    noKCN pathSoFar = true →
    (t = [] ∨ ∃ Y n, t = 91 :: Y ∧ findSub [93, 13, 10] Y = some n ∧
      ((Y.take n).length ≤ (pathPrefix pathSoFar).length ∨
        ¬ ((pathPrefix pathSoFar).isPrefixOf (Y.take n) = true))) →
    (renderRegistryKeysList ext pathSoFar ks ++ t).length < fuel →
    regListLoopAux fuel (pathPrefix pathSoFar) (renderRegistryKeysList ext pathSoFar ks ++ t)
      = .ok (ks, t) := by
  intro fuel
  induction fuel with
  | zero => intro _ _ _ _ _ _ _ hf; omega
  | succ fuel ih =>
    intro pathSoFar ks t hne hks hkcn ht hf
    match ks, hne with
    | .mk name sub vals :: rest, _ =>
      simp only [rtKeysOK, rtKeyOK, Bool.and_eq_true, decide_eq_true_eq,
        Bool.not_eq_true'] at hks
      obtain ⟨⟨⟨⟨⟨hname, h92⟩, hkcnN⟩, hvals⟩, hsub⟩, hrest⟩ := hks
      have hkcnNP := noKCN_child pathSoFar name hkcn hkcnN
      simp only [renderRegistryKeysList, renderRegistryKeyToRegFormat, List.cons_append,
        List.append_assoc, List.nil_append] at hf ⊢
      simp only [regListLoopAux]
      have hfind := findSub_93crlf
        (escLF (if pathSoFar = [] then name else pathSoFar ++ 92 :: name))
        ((vals.map (renderRegistryValue ext)).flatten ++
          13 :: 10 :: (renderRegistryKeysList ext
            (if pathSoFar = [] then name else pathSoFar ++ 92 :: name) sub ++
            (renderRegistryKeysList ext pathSoFar rest ++ t)))
        (no93CRLF_escLF _ hkcnNP)
      simp only [hfind]
      rw [take_header, drop_after_header]
      have hcont := header_continue pathSoFar name hname
      rw [if_neg (by
        intro hcase
        rcases hcase with hlen | hpre
        · omega
        · exact hpre hcont.2)]
      unfold valueListToInternal
      have hvla := valueListAux_render ext vals
        (((vals.map (renderRegistryValue ext)).flatten ++
          13 :: 10 :: (renderRegistryKeysList ext
            (if pathSoFar = [] then name else pathSoFar ++ 92 :: name) sub ++
            (renderRegistryKeysList ext pathSoFar rest ++ t))).length + 1)
        (renderRegistryKeysList ext
          (if pathSoFar = [] then name else pathSoFar ++ 92 :: name) sub ++
          (renderRegistryKeysList ext pathSoFar rest ++ t))
        hvals
        (by
          have hrv := renderValues_length ext vals
          simp only [List.length_append]
          omega)
      simp only [hvla]
      rw [name_recover]
      have hdrop91 : ∀ x : List CodeUnit, dropCRLFpairs (91 :: x) = 91 :: x :=
        fun x => dropCRLFpairs_cons_ne 91 x (by decide)
      have htZ : (renderRegistryKeysList ext pathSoFar rest ++ t) = [] ∨
          ∃ Y n, (renderRegistryKeysList ext pathSoFar rest ++ t) = 91 :: Y ∧
            findSub [93, 13, 10] Y = some n ∧
            ((Y.take n).length ≤ (pathPrefix (if pathSoFar = [] then name
                else pathSoFar ++ 92 :: name)).length ∨
              ¬ ((pathPrefix (if pathSoFar = [] then name
                else pathSoFar ++ 92 :: name)).isPrefixOf (Y.take n) = true)) := by
        match rest, hrest with
        | [], _ =>
          simp only [renderRegistryKeysList, List.nil_append]
          rcases ht with rfl | ⟨Y, n, rfl, hfindT, hstopT⟩
          · exact Or.inl rfl
          · refine Or.inr ⟨Y, n, rfl, hfindT, ?_⟩
            rw [pathPrefix_child _ (child_ne_nil pathSoFar name hname)]
            exact stop_mono _ _ _ (pathPrefix_le_child pathSoFar name) hstopT
        | .mk name2 sub2 vals2 :: rest', hrest2 =>
          have hr2 := hrest2
          simp only [rtKeysOK, rtKeyOK, Bool.and_eq_true, decide_eq_true_eq,
            Bool.not_eq_true'] at hr2
          obtain ⟨⟨⟨⟨⟨hname2, h92b⟩, hkcnN2⟩, -⟩, -⟩, -⟩ := hr2
          obtain ⟨Y2, hY2, hfind2, htake2⟩ := renderKey_shape ext pathSoFar name2 sub2 vals2
            (renderRegistryKeysList ext pathSoFar rest' ++ t) hkcn hkcnN2
          refine Or.inr ⟨Y2, _, ?_, hfind2, ?_⟩
          · simp only [renderRegistryKeysList, List.append_assoc]
            exact hY2
          · rw [htake2, pathPrefix_child _ (child_ne_nil pathSoFar name hname)]
            exact Or.inr (sibling_stop pathSoFar name name2 h92b)
      have hfuel1 : 1 ≤ fuel := by
        simp only [List.length_cons, List.length_append] at hf
        omega
      by_cases hsubnil : sub = []
      · subst hsubnil
        simp only [renderRegistryKeysList, List.nil_append]
        rcases htZ with hZnil | ⟨Y, n, hZeq, hfindZ, hstopZ⟩
        · have hZ2 := hZnil
          rw [List.append_eq_nil] at hZ2
          have hrestnil : rest = [] := by
            by_contra hcon
            obtain ⟨Yx, hYx⟩ := renderKeysList_head ext pathSoFar rest hcon
            simp [hYx] at hZ2
          subst hrestnil
          obtain rfl := hZ2.2
          rfl
        · rw [hZeq, hdrop91, if_neg (by simp), hdrop91, if_neg (by simp)]
          have hstop2 := regListLoopAux_stop2 fuel hfuel1
            (escLF (if pathSoFar = [] then name else pathSoFar ++ 92 :: name) ++ [92]) Y n hfindZ
            (by
              rw [pathPrefix_child _ (child_ne_nil pathSoFar name hname)] at hstopZ
              exact hstopZ)
          simp only [hstop2]
          rw [← hZeq]
          rcases rest with _ | ⟨k2, rest'⟩
          · simp only [renderRegistryKeysList, List.nil_append]
            rcases ht with rfl | ⟨Y', n', rfl, hfindT, hstopT⟩
            · rfl
            · simp only [buggyCRStrip_91]
              rw [if_neg (by simp)]
              have hstop3 := regListLoopAux_stop2 fuel hfuel1 (pathPrefix pathSoFar) Y' n'
                hfindT hstopT
              simp only [hstop3]
          · obtain ⟨Yr, hYr⟩ := renderKeysList_head ext pathSoFar (k2 :: rest') (by simp)
            rw [hYr, List.cons_append, buggyCRStrip_91, if_neg (by simp), ← List.cons_append,
              ← hYr]
            have hsib := ih pathSoFar (k2 :: rest') t (by simp) hrest hkcn ht
              (by simp only [List.length_cons, List.length_append] at hf ⊢; omega)
            simp only [hsib]
      · obtain ⟨Ys, hYs⟩ := renderKeysList_head ext
          (if pathSoFar = [] then name else pathSoFar ++ 92 :: name) sub hsubnil
        rw [hYs, List.cons_append, hdrop91, if_neg (by simp), hdrop91, if_neg (by simp),
          ← List.cons_append, ← hYs,
          ← pathPrefix_child _ (child_ne_nil pathSoFar name hname)]
        have hchild := ih (if pathSoFar = [] then name else pathSoFar ++ 92 :: name) sub
          (renderRegistryKeysList ext pathSoFar rest ++ t) hsubnil hsub hkcnNP htZ
          (by simp only [List.length_cons, List.length_append] at hf ⊢; omega)
        simp only [hchild]
        rcases rest with _ | ⟨k2, rest'⟩
        · simp only [renderRegistryKeysList, List.nil_append]
          rcases ht with rfl | ⟨Y', n', rfl, hfindT, hstopT⟩
          · rfl
          · simp only [buggyCRStrip_91]
            rw [if_neg (by simp)]
            have hstop3 := regListLoopAux_stop2 fuel hfuel1 (pathPrefix pathSoFar) Y' n'
              hfindT hstopT
            simp only [hstop3]
        · obtain ⟨Yr, hYr⟩ := renderKeysList_head ext pathSoFar (k2 :: rest') (by simp)
          rw [hYr, List.cons_append, buggyCRStrip_91, if_neg (by simp), ← List.cons_append,
            ← hYr]
          have hsib := ih pathSoFar (k2 :: rest') t (by simp) hrest hkcn ht
            (by simp only [List.length_cons, List.length_append] at hf ⊢; omega)
          simp only [hsib]

theorem regFile_roundtrip (ext : Bool) (k : RegistryKey) (hr : rtKeyOK k = true) :
    regFileToInternal (internalToRegfile ext k) = .ok k := by
  unfold internalToRegfile regFileToInternal
  simp only [expectConsume_self_append]
  unfold regListToInternal
  have hEq : renderRegistryKeyToRegFormat ext [] k = renderRegistryKeysList ext [] [k] := by
    simp [renderRegistryKeysList]
  rw [hEq]
  obtain ⟨Y0, hY0⟩ := renderKeysList_head ext [] [k] (by simp)
  rw [hY0, dropCRLFpairs_cons_ne 91 _ (by decide), if_neg (by simp), ← hY0]
  have hmain := regListLoopAux_render ext
    ((renderRegistryKeysList ext [] [k]).length + 1) [] [k] []
    (by simp) (by simp [rtKeysOK, hr]) rfl (Or.inl rfl)
    (by rw [List.append_nil]; omega)
  rw [show pathPrefix [] = [] from rfl] at hmain
  rw [List.append_nil] at hmain
  simp only [hmain, if_true]

/-- Claim C1, counterexample: two key trees satisfying the section-3 invariants
(key names free of the path separator, names unique, values well formed) whose
rendered export text fails to parse back: a root key whose name contains `]`
directly followed by a linefeed (the linefeed is expanded to CRLF in the
header, so the first `]` CR LF found by the parser truncates the key path and
the remainder of the name is misread as a value line), and a root key with the
empty name (the header path is empty, the parser's properly-extends check
fails, no key is produced, and the entry point rejects the file). -/
theorem c1_counterexample :
    sec3KeyInv (RegistryKey.mk [65, 93, 10, 66] [] []) = true ∧
    regFileToInternal (internalToRegfile false (RegistryKey.mk [65, 93, 10, 66] [] []))
      = .error .unexpected ∧
    sec3KeyInv (RegistryKey.mk [] [] []) = true ∧
    regFileToInternal (internalToRegfile false (RegistryKey.mk [] [] []))
      = .error .unexpected := by
  refine ⟨by decide, by rfl, by decide, by rfl⟩

/-- Claim C1, amended: for every registry key tree satisfying the section-3
invariants whose key names are in addition non-empty and free of a `]` code
unit immediately followed by a linefeed, parsing the rendered export text
reproduces the tree exactly (same names, types, byte-for-byte data, and child
and value order); this holds both with extensions disabled and enabled, the
extension renderings being accepted by the single parser in either case. -/
theorem c1_roundtrip_amended (ext : Bool) (k : RegistryKey)
    (hs : sec3KeyInv k = true) (hr : rtKeyOK k = true) :
    regFileToInternal (internalToRegfile ext k) = .ok k :=
  regFile_roundtrip ext k hr

theorem c1_roundtrip_amended_witness :
    sec3KeyInv (RegistryKey.mk [82, 111, 111, 116]
        [RegistryKey.mk [83, 117, 98] [] []] [⟨[118], 4, [1, 0, 0, 0]⟩]) = true ∧
    rtKeyOK (RegistryKey.mk [82, 111, 111, 116]
        [RegistryKey.mk [83, 117, 98] [] []] [⟨[118], 4, [1, 0, 0, 0]⟩]) = true ∧
    regFileToInternal (internalToRegfile true (RegistryKey.mk [82, 111, 111, 116]
        [RegistryKey.mk [83, 117, 98] [] []] [⟨[118], 4, [1, 0, 0, 0]⟩]))
      = .ok (RegistryKey.mk [82, 111, 111, 116]
        [RegistryKey.mk [83, 117, 98] [] []] [⟨[118], 4, [1, 0, 0, 0]⟩]) :=
  ⟨by decide, by decide,
    c1_roundtrip_amended true
      (RegistryKey.mk [82, 111, 111, 116]
        [RegistryKey.mk [83, 117, 98] [] []] [⟨[118], 4, [1, 0, 0, 0]⟩])
      (by decide) (by decide)⟩
